import Mathlib

/-!
Verification of the codex-swarm orchestrator core.

Shallow embedding of the Python sources under `src/codex_swarm/`:
strings are `List Char`, Python ints are `Int`, Python floats are `ℚ`,
fallible code returns `Option`.  Each definition names the source
function it embeds.
-/

/-- Characters of Python's default `str.strip` set, which coincides with the
regex class `\s` on ASCII input. -/
def pyIsWs (c : Char) : Bool :=
  c = ' ' || c = '\t' || c = '\n' || c = '\r' || c = '\x0b' || c = '\x0c'

/-- Python `str.strip()`: drop whitespace from both ends. -/
def pyStrip (s : List Char) : List Char :=
  ((s.dropWhile pyIsWs).reverse.dropWhile pyIsWs).reverse

/-- Python `str.lower()` (ASCII). -/
def pyLower (s : List Char) : List Char :=
  s.map Char.toLower

/-- Python `a or b` on strings: `b` exactly when `a` is empty. -/
def pyOrStr (a b : List Char) : List Char :=
  if a = [] then b else a

/- ===== budget_tracker.py ===== -/

/-- `BudgetConfig` (models.py): caps for the budget tracker. -/
structure BudgetConfig where
  max_total_cost : ℚ := 5
  max_worker_cost : ℚ := 3/2
  max_total_tokens : Int := 200000
  warn_at_percent : Int := 80
deriving DecidableEq

/-- `TokenUsage` (models.py). -/
structure TokenUsage where
  input_tokens : Int := 0
  cached_input_tokens : Int := 0
  output_tokens : Int := 0
deriving DecidableEq

/-- `TokenUsage.total_tokens` (models.py): input plus output tokens. -/
def TokenUsage.total_tokens (u : TokenUsage) : Int :=
  u.input_tokens + u.output_tokens

/-- Mutable state of `BudgetTracker` (budget_tracker.py). -/
structure BudgetTracker where
  config : BudgetConfig
  total_input_tokens : Int := 0
  total_output_tokens : Int := 0
  total_cost : ℚ := 0
  warned : Bool := false
  worker_costs : List (List Char × ℚ) := []
deriving DecidableEq

/-- Python `self.worker_costs.get(worker_id, 0.0)`. -/
def lookupCost (m : List (List Char × ℚ)) (k : List Char) : ℚ :=
  match m with
  | [] => 0
  | (k', v) :: rest => if k' = k then v else lookupCost rest k

/-- Python dict assignment `m[k] = v`: replace the existing entry or append. -/
def setCost (m : List (List Char × ℚ)) (k : List Char) (v : ℚ) :
    List (List Char × ℚ) :=
  match m with
  | [] => [(k, v)]
  | (k', v') :: rest =>
      if k' = k then (k', v) :: rest else (k', v') :: setCost rest k v

/-- `MODEL_PRICE_PER_1K` lookup with the fixed default `(0.004, 0.012)`
(budget_tracker.py).  The model slug may be `None` in the configuration. -/
def MODEL_PRICE_PER_1K (model : Option (List Char)) : ℚ × ℚ :=
  if model = some ("o3".toList) then (10/1000, 30/1000)
  else if model = some ("o4-mini".toList) then (3/1000, 12/1000)
  else (4/1000, 12/1000)

/-- `BudgetTracker.estimate_cost` (budget_tracker.py lines 28-31). -/
def estimate_cost (model : Option (List Char)) (u : TokenUsage) : ℚ :=
  let p := MODEL_PRICE_PER_1K model
  let billable : Int := max 0 (u.input_tokens - u.cached_input_tokens)
  (billable : ℚ) / 1000 * p.1 + (u.output_tokens : ℚ) / 1000 * p.2

/-- `BudgetTracker.add_usage` (budget_tracker.py lines 33-48), minus the
final `snapshot()` call whose value is derived by `snapshot` below. -/
def add_usage (s : BudgetTracker) (u : TokenUsage) (model : Option (List Char))
    (worker_id : Option (List Char)) : BudgetTracker :=
  let cost := estimate_cost model u
  let s1 : BudgetTracker :=
    { s with total_input_tokens := s.total_input_tokens + u.input_tokens,
             total_output_tokens := s.total_output_tokens + u.output_tokens,
             total_cost := s.total_cost + cost }
  let s2 : BudgetTracker :=
    match worker_id with
    | some w =>
        if w ≠ [] then
          { s1 with worker_costs := setCost s1.worker_costs w (lookupCost s1.worker_costs w + cost) }
        else s1
    | none => s1
  if ¬ s2.warned ∧ s2.config.max_total_cost > 0 then
    if s2.total_cost / s2.config.max_total_cost * 100 ≥ (s2.config.warn_at_percent : ℚ) then
      { s2 with warned := true }
    else s2
  else s2

/-- Python `round` to an integer: round half to even. -/
def pyRound (q : ℚ) : Int :=
  if q - ⌊q⌋ < 1/2 then ⌊q⌋
  else if q - ⌊q⌋ > 1/2 then ⌊q⌋ + 1
  else if Even ⌊q⌋ then ⌊q⌋ else ⌊q⌋ + 1

/-- Python `round(q, 6)`. -/
def round6 (q : ℚ) : ℚ :=
  (pyRound (q * 1000000) : ℚ) / 1000000

/-- `BudgetSnapshot` (models.py). -/
structure BudgetSnapshot where
  total_input_tokens : Int
  total_output_tokens : Int
  total_tokens : Int
  total_cost : ℚ
  warned : Bool
deriving DecidableEq

/-- `BudgetTracker.snapshot` (budget_tracker.py lines 50-58). -/
def snapshot (s : BudgetTracker) : BudgetSnapshot :=
  { total_input_tokens := s.total_input_tokens,
    total_output_tokens := s.total_output_tokens,
    total_tokens := s.total_input_tokens + s.total_output_tokens,
    total_cost := round6 s.total_cost,
    warned := s.warned }

/-- `BudgetTracker.can_spawn_worker` (budget_tracker.py lines 60-68). -/
def can_spawn_worker (s : BudgetTracker) : Bool × List Char :=
  let total_tokens := s.total_input_tokens + s.total_output_tokens
  if s.config.max_total_tokens > 0 ∧ total_tokens ≥ s.config.max_total_tokens then
    (false, ("max_total_tokens exceeded").toList)
  else if s.config.max_total_cost > 0 ∧ s.total_cost ≥ s.config.max_total_cost then
    (false, ("max_total_cost exceeded").toList)
  else
    (true, ("ok").toList)

/-- Fold a sequence of `add_usage` calls over the tracker. -/
def add_usage_all (s : BudgetTracker)
    (calls : List (TokenUsage × Option (List Char) × Option (List Char))) :
    BudgetTracker :=
  match calls with
  | [] => s
  | (u, m, w) :: rest => add_usage_all (add_usage s u m w) rest

/- ===== merge_manager.py ===== -/

/-- Captured result of a completed git subprocess. -/
structure ProcResult where
  returncode : Int
  stdout : List Char
  stderr : List Char
deriving DecidableEq

/-- `MergeOutcome` (models.py). -/
structure MergeOutcome where
  worker_id : List Char
  branch : List Char
  merged : Bool
  conflict : Bool := false
  message : List Char := []
deriving DecidableEq

/-- Observable behaviour of one `MergeManager.merge_branch` call. -/
structure MergeBranchRun where
  outcome : MergeOutcome
  abort_ran : Bool
deriving DecidableEq

/-- `MergeManager.merge_branch` (merge_manager.py lines 25-48).  The result of
the spawned `git merge` subprocess is passed as `proc`; on a non-zero exit the
method also spawns `git merge --abort`, recorded in `abort_ran`. -/
def merge_branch (worker_id branch : List Char) (proc : ProcResult) :
    MergeBranchRun :=
  if proc.returncode = 0 then
    { outcome := { worker_id := worker_id, branch := branch, merged := true,
                   conflict := false, message := pyStrip proc.stdout },
      abort_ran := false }
  else
    { outcome := { worker_id := worker_id, branch := branch, merged := false,
                   conflict := true,
                   message :=
                     pyStrip (pyOrStr proc.stderr
                       (pyOrStr proc.stdout ("merge conflict").toList)) },
      abort_ran := true }

/- ===== worker_manager.py: result assembly ===== -/

/-- `WorkerStatus` (models.py). -/
inductive WorkerStatus
  | queued | running | completed | failed | blocked | timed_out | pending_approval
deriving DecidableEq

/-- `WorkerResultStatus` (models.py); `partial_res` embeds the source value
`partial`. -/
inductive WorkerResultStatus
  | success | partial_res | failed | blocked
deriving DecidableEq

/-- Order of worker result statuses, `success` highest. -/
def WorkerResultStatus.rank : WorkerResultStatus → Nat
  | .success => 3
  | .partial_res => 2
  | .failed => 1
  | .blocked => 0

/-- `WorkerResult` (models.py), restricted to the fields the result-assembly
code reads or writes. -/
structure WorkerResult where
  status : WorkerResultStatus := .success
  summary : List Char := []
  warnings : List (List Char) := []
  confidence : ℚ := 1/2
deriving DecidableEq

/-- Outputs of the result-assembly block of `WorkerManager.run_task`. -/
structure FinalizedWorker where
  status : WorkerStatus
  result : WorkerResult
  requires_approval : Bool
  out_of_scope_files : List (List Char)
  error : List Char
deriving DecidableEq

/-- Embeds the result-assembly block of `WorkerManager.run_task`
(worker_manager.py lines 183-226): the out-of-scope list has been computed by
`_out_of_scope_files`, `wr` is the loaded (or synthesized) worker result, and
the block resolves the lifecycle status by priority timed_out, then failed,
then pending_approval, then completed, demoting the result status and
appending a warning on each demotion path. -/
def finalize_worker (timed_out : Bool) (exit_code : Int)
    (out_of_scope : List (List Char)) (wr : WorkerResult) : FinalizedWorker :=
  let requires_approval : Bool := out_of_scope.length > 0
  if timed_out then
    let msg := ("Worker timed out").toList
    let wr' := { wr with status := WorkerResultStatus.failed,
                         warnings := wr.warnings ++ [msg] }
    { status := .timed_out, result := wr', requires_approval := requires_approval,
      out_of_scope_files := out_of_scope, error := msg }
  else if exit_code ≠ 0 then
    let msg := ("Worker exited with code ").toList ++ (toString exit_code).toList
    let st := if wr.status = WorkerResultStatus.success then
                WorkerResultStatus.partial_res else wr.status
    let wr' := { wr with status := st, warnings := wr.warnings ++ [msg] }
    { status := .failed, result := wr', requires_approval := requires_approval,
      out_of_scope_files := out_of_scope, error := msg }
  else if requires_approval then
    let msg := ("Out-of-scope edits require supervisor approval").toList
    let st := if wr.status = WorkerResultStatus.success then
                WorkerResultStatus.partial_res else wr.status
    let wr' := { wr with status := st, warnings := wr.warnings ++ [msg] }
    { status := .pending_approval, result := wr', requires_approval := requires_approval,
      out_of_scope_files := out_of_scope, error := [] }
  else
    { status := .completed, result := wr, requires_approval := requires_approval,
      out_of_scope_files := out_of_scope, error := [] }

/- ===== orchestrator.py: registration and auto-merge ===== -/

/-- The fields of `WorkerExecutionResult` read by `_register_worker_result`
and `_maybe_auto_merge` (orchestrator.py). -/
structure ExecResultLite where
  worker_id : List Char
  branch : List Char
  worktree_path : List Char
  task : List Char
  status : WorkerStatus
  requires_approval : Bool
deriving DecidableEq

/-- `Orchestrator._register_worker_result` (orchestrator.py lines 163-185),
restricted to its effect on the pending-approval set. -/
def register_pending (pending : Finset (List Char)) (res : ExecResultLite) :
    Finset (List Char) :=
  if res.requires_approval then insert res.worker_id pending else pending

/-- How `_maybe_auto_merge` released the worker's worktree. -/
inductive WorktreeRelease
  | notReleased | keptBranch | removedBranch
deriving DecidableEq

/-- Value returned by `_maybe_auto_merge`: `noOutcome` is Python `None`,
`pendingApproval` is the dict with reason `pending_supervisor_approval`,
`statusSkip` the dict with the lifecycle status as reason, `mergeRun` the
dumped `MergeOutcome`. -/
inductive AutoMergeOutcome
  | noOutcome
  | pendingApproval (worker_id : List Char)
  | statusSkip (reason : WorkerStatus)
  | mergeRun (o : MergeOutcome)
deriving DecidableEq

/-- Observable behaviour of one `_maybe_auto_merge` call. -/
structure AutoMergeRun where
  merge_invoked : Bool
  release : WorktreeRelease
  outcome : AutoMergeOutcome
deriving DecidableEq

/-- `Orchestrator._maybe_auto_merge` (orchestrator.py lines 187-244).
`auto_merge` is `config.worktree.auto_merge`; `proc` is the git subprocess
result consumed by `merge_branch` when the merge is actually invoked. -/
def maybe_auto_merge (auto_merge : Bool) (res : ExecResultLite)
    (proc : ProcResult) : AutoMergeRun :=
  let can_cleanup : Bool := res.worktree_path ≠ [] ∧ res.branch ≠ []
  if ¬ auto_merge then
    { merge_invoked := false,
      release := if can_cleanup then .keptBranch else .notReleased,
      outcome := .noOutcome }
  else if res.requires_approval then
    { merge_invoked := false,
      release := if can_cleanup then .keptBranch else .notReleased,
      outcome := .pendingApproval res.worker_id }
  else if res.status ≠ .completed then
    { merge_invoked := false,
      release := if can_cleanup then .keptBranch else .notReleased,
      outcome := .statusSkip res.status }
  else
    let run := merge_branch res.worker_id res.branch proc
    { merge_invoked := true,
      release :=
        if can_cleanup then
          if run.outcome.merged then .removedBranch else .keptBranch
        else .notReleased,
      outcome := .mergeRun run.outcome }

/- ===== rounding lemmas ===== -/

theorem pyRound_lb (q : ℚ) : ⌊q⌋ ≤ pyRound q := by
  unfold pyRound
  split_ifs <;> omega

theorem pyRound_ub (q : ℚ) : pyRound q ≤ ⌊q⌋ + 1 := by
  unfold pyRound
  split_ifs <;> omega

theorem pyRound_mono {q r : ℚ} (h : q ≤ r) : pyRound q ≤ pyRound r := by
  rcases lt_or_eq_of_le (Int.floor_le_floor h) with hf | hf
  · have h1 := pyRound_ub q
    have h2 := pyRound_lb r
    omega
  · unfold pyRound
    rw [← hf]
    split_ifs <;> first
      | omega
      | (exfalso; rw [← hf] at *; linarith)

theorem round6_mono {q r : ℚ} (h : q ≤ r) : round6 q ≤ round6 r := by
  unfold round6
  have : pyRound (q * 1000000) ≤ pyRound (r * 1000000) :=
    pyRound_mono (by linarith)
  have hc : ((pyRound (q * 1000000) : ℚ)) ≤ ((pyRound (r * 1000000) : ℚ)) := by
    exact_mod_cast this
  linarith

/- ===== claim theorems: C5, C7, C1, C2 ===== -/

/-- C5: `can_spawn_worker` returns false iff the token cap is positive and
reached, or the cost cap is positive and reached; non-positive caps disable
the corresponding check, so with both caps non-positive it returns true. -/
theorem C5_can_spawn_worker (s : BudgetTracker) :
    ((can_spawn_worker s).1 = false ↔
      ((s.config.max_total_tokens > 0 ∧
          s.total_input_tokens + s.total_output_tokens ≥ s.config.max_total_tokens) ∨
        (s.config.max_total_cost > 0 ∧ s.total_cost ≥ s.config.max_total_cost)))
    ∧ (s.config.max_total_tokens ≤ 0 → s.config.max_total_cost ≤ 0 →
        (can_spawn_worker s).1 = true) := by
  refine ⟨?_, ?_⟩
  · simp only [can_spawn_worker]
    split_ifs with h1 h2
    · simp [h1]
    · simp [h1, h2]
    · simp [h1, h2]
  · intro ht hc
    simp only [can_spawn_worker]
    split_ifs with h1 h2
    · exfalso; rcases h1 with ⟨a, b⟩; omega
    · exfalso; rcases h2 with ⟨a, b⟩; linarith
    · rfl

/-- Witness for C5 at a tracker with both caps zero. -/
theorem C5_can_spawn_worker_witness :
    (can_spawn_worker
      { config := { max_total_cost := 0, max_worker_cost := 0,
                    max_total_tokens := 0, warn_at_percent := 80 } }).1 = true :=
  (C5_can_spawn_worker _).2 (by norm_num) (by norm_num)

/-- C7 as literally stated is false: with exit code 0 and stdout `"ok\n"`,
`merge_branch` reports the stripped stdout `"ok"`, not stdout itself. -/
theorem C7_counterexample :
    (merge_branch ("w1").toList ("b").toList
        { returncode := 0, stdout := ("ok\n").toList, stderr := [] }).outcome.merged = true
    ∧ (merge_branch ("w1").toList ("b").toList
        { returncode := 0, stdout := ("ok\n").toList, stderr := [] }).outcome.message ≠
        ("ok\n").toList := by
  constructor
  · rfl
  · decide

/-- C7 (amended): on a zero merge exit `merge_branch` returns
merged true, conflict false, message the *stripped* stdout and runs no abort;
on a non-zero exit it runs `merge --abort` unconditionally and returns merged
false, conflict true, message the *stripped* value of stderr if non-empty,
else stdout if non-empty, else the literal "merge conflict" (the selection is
on the raw, pre-strip strings). -/
theorem C7_merge_branch (wid branch : List Char) (proc : ProcResult) :
    (proc.returncode = 0 →
      merge_branch wid branch proc =
        { outcome := { worker_id := wid, branch := branch, merged := true,
                       conflict := false, message := pyStrip proc.stdout },
          abort_ran := false })
    ∧ (proc.returncode ≠ 0 →
        (merge_branch wid branch proc).abort_ran = true
        ∧ (merge_branch wid branch proc).outcome.merged = false
        ∧ (merge_branch wid branch proc).outcome.conflict = true
        ∧ (merge_branch wid branch proc).outcome.message =
            pyStrip (if proc.stderr ≠ [] then proc.stderr
                     else if proc.stdout ≠ [] then proc.stdout
                     else ("merge conflict").toList)) := by
  unfold merge_branch pyOrStr
  constructor
  · intro h
    simp [h]
  · intro h
    split_ifs <;> simp_all

/-- Witness for C7 at a failing merge with empty stderr and stdout. -/
theorem C7_merge_branch_witness :
    (1 : Int) ≠ 0
    ∧ ((merge_branch ("w1").toList ("b").toList
          { returncode := 1, stdout := [], stderr := [] }).abort_ran = true
        ∧ (merge_branch ("w1").toList ("b").toList
            { returncode := 1, stdout := [], stderr := [] }).outcome.merged = false
        ∧ (merge_branch ("w1").toList ("b").toList
            { returncode := 1, stdout := [], stderr := [] }).outcome.conflict = true
        ∧ (merge_branch ("w1").toList ("b").toList
            { returncode := 1, stdout := [], stderr := [] }).outcome.message =
            pyStrip (if ([] : List Char) ≠ [] then []
                     else if ([] : List Char) ≠ [] then []
                     else ("merge conflict").toList)) :=
  ⟨by decide, (C7_merge_branch _ _ _).2 (by decide)⟩

/-- C1: at result assembly `requires_approval` is true iff the out-of-scope
list is non-empty, and the auto-merge path for an approval-flagged worker
never invokes `merge_branch`: it adds the worker id to the pending-approval
set, releases the worktree keeping the branch, and returns the
pending_supervisor_approval outcome. -/
theorem C1_approval_gate (t : Bool) (e : Int) (oos : List (List Char))
    (wr : WorkerResult) (pending : Finset (List Char)) (res : ExecResultLite)
    (proc : ProcResult) (hra : res.requires_approval = true)
    (hwt : res.worktree_path ≠ []) (hbr : res.branch ≠ []) :
    ((finalize_worker t e oos wr).requires_approval = true ↔ oos ≠ [])
    ∧ (maybe_auto_merge true res proc).merge_invoked = false
    ∧ (maybe_auto_merge true res proc).release = WorktreeRelease.keptBranch
    ∧ (maybe_auto_merge true res proc).outcome =
        AutoMergeOutcome.pendingApproval res.worker_id
    ∧ res.worker_id ∈ register_pending pending res := by
  refine ⟨?_, ?_, ?_, ?_, ?_⟩
  · simp only [finalize_worker]
    split_ifs <;>
      simp [List.length_pos]
  · simp [maybe_auto_merge, hra]
  · simp [maybe_auto_merge, hra, hwt, hbr]
  · simp [maybe_auto_merge, hra]
  · simp [register_pending, hra]

/-- Witness for C1 at a concrete approval-flagged worker. -/
theorem C1_approval_gate_witness :
    ({ worker_id := ("w1").toList, branch := ("b1").toList,
       worktree_path := ("p1").toList, task := [],
       status := WorkerStatus.pending_approval,
       requires_approval := true } : ExecResultLite).requires_approval = true
    ∧ ("p1").toList ≠ ([] : List Char)
    ∧ ("b1").toList ≠ ([] : List Char)
    ∧ (((finalize_worker false 0 [("x").toList] {}).requires_approval = true ↔
          [("x").toList] ≠ [])
        ∧ (maybe_auto_merge true
            { worker_id := ("w1").toList, branch := ("b1").toList,
              worktree_path := ("p1").toList, task := [],
              status := WorkerStatus.pending_approval, requires_approval := true }
            { returncode := 0, stdout := [], stderr := [] }).merge_invoked = false
        ∧ (maybe_auto_merge true
            { worker_id := ("w1").toList, branch := ("b1").toList,
              worktree_path := ("p1").toList, task := [],
              status := WorkerStatus.pending_approval, requires_approval := true }
            { returncode := 0, stdout := [], stderr := [] }).release =
            WorktreeRelease.keptBranch
        ∧ (maybe_auto_merge true
            { worker_id := ("w1").toList, branch := ("b1").toList,
              worktree_path := ("p1").toList, task := [],
              status := WorkerStatus.pending_approval, requires_approval := true }
            { returncode := 0, stdout := [], stderr := [] }).outcome =
            AutoMergeOutcome.pendingApproval ("w1").toList
        ∧ ("w1").toList ∈ register_pending (∅ : Finset (List Char))
            { worker_id := ("w1").toList, branch := ("b1").toList,
              worktree_path := ("p1").toList, task := [],
              status := WorkerStatus.pending_approval, requires_approval := true }) :=
  ⟨by decide, by decide, by decide,
    C1_approval_gate false 0 [("x").toList] {} ∅ _ _ (by decide) (by decide) (by decide)⟩

/-- C2: the final lifecycle status is resolved by strict priority timed_out
over failed over pending_approval over completed, and on every demotion path
an explanatory warning is appended and a success result is downgraded to at
most partial. -/
theorem C2_status_priority (t : Bool) (e : Int) (oos : List (List Char))
    (wr : WorkerResult) :
    ((finalize_worker t e oos wr).status = WorkerStatus.timed_out ↔ t = true)
    ∧ ((finalize_worker t e oos wr).status = WorkerStatus.failed ↔
        (t = false ∧ e ≠ 0))
    ∧ ((finalize_worker t e oos wr).status = WorkerStatus.pending_approval ↔
        (t = false ∧ e = 0 ∧ oos ≠ []))
    ∧ ((finalize_worker t e oos wr).status = WorkerStatus.completed ↔
        (t = false ∧ e = 0 ∧ oos = []))
    ∧ ((finalize_worker t e oos wr).status ≠ WorkerStatus.completed →
        ((∃ m, (finalize_worker t e oos wr).result.warnings = wr.warnings ++ [m])
          ∧ (wr.status = WorkerResultStatus.success →
              ((finalize_worker t e oos wr).result.status).rank ≤
                WorkerResultStatus.partial_res.rank))) := by
  simp only [finalize_worker]
  by_cases ht : t = true
  · subst ht
    simp [WorkerResultStatus.rank]
  · have ht' : t = false := by simpa using ht
    subst ht'
    by_cases he : e = 0
    · subst he
      by_cases ho : oos = []
      · subst ho
        simp
      · have hlen : (0 : ℕ) < oos.length := List.length_pos.mpr ho
        simp [ho, hlen]
        intro hs
        simp [hs, WorkerResultStatus.rank]
    · have hlen := he
      simp [he]
      intro hs
      simp [hs, WorkerResultStatus.rank]

/-- Witness for C2 (no hypotheses are needed beyond the universally
quantified inputs; instantiated at a failing exit). -/
theorem C2_status_priority_witness :
    ((finalize_worker false 1 [] {}).status = WorkerStatus.timed_out ↔ false = true)
    ∧ ((finalize_worker false 1 [] {}).status = WorkerStatus.failed ↔
        (false = false ∧ (1 : Int) ≠ 0))
    ∧ ((finalize_worker false 1 [] {}).status = WorkerStatus.pending_approval ↔
        (false = false ∧ (1 : Int) = 0 ∧ ([] : List (List Char)) ≠ []))
    ∧ ((finalize_worker false 1 [] {}).status = WorkerStatus.completed ↔
        (false = false ∧ (1 : Int) = 0 ∧ ([] : List (List Char)) = []))
    ∧ ((finalize_worker false 1 [] {}).status ≠ WorkerStatus.completed →
        ((∃ m, (finalize_worker false 1 [] {}).result.warnings =
            ({} : WorkerResult).warnings ++ [m])
          ∧ (({} : WorkerResult).status = WorkerResultStatus.success →
              ((finalize_worker false 1 [] {}).result.status).rank ≤
                WorkerResultStatus.partial_res.rank))) :=
  C2_status_priority false 1 [] {}

/- ===== C6: budget monotonicity ===== -/

theorem MODEL_PRICE_nonneg (m : Option (List Char)) :
    0 ≤ (MODEL_PRICE_PER_1K m).1 ∧ 0 ≤ (MODEL_PRICE_PER_1K m).2 := by
  unfold MODEL_PRICE_PER_1K
  split_ifs <;> norm_num

theorem estimate_cost_nonneg (m : Option (List Char)) (u : TokenUsage)
    (hout : 0 ≤ u.output_tokens) : 0 ≤ estimate_cost m u := by
  unfold estimate_cost
  have hp := MODEL_PRICE_nonneg m
  have hb : (0 : ℚ) ≤ ((max 0 (u.input_tokens - u.cached_input_tokens) : Int) : ℚ) := by
    have : (0 : Int) ≤ max 0 (u.input_tokens - u.cached_input_tokens) := le_max_left _ _
    exact_mod_cast this
  have ho : (0 : ℚ) ≤ ((u.output_tokens : Int) : ℚ) := by exact_mod_cast hout
  have h1 : (0 : ℚ) ≤ ((max 0 (u.input_tokens - u.cached_input_tokens) : Int) : ℚ) / 1000 *
      (MODEL_PRICE_PER_1K m).1 := by
    apply mul_nonneg (by positivity) hp.1
  have h2 : (0 : ℚ) ≤ ((u.output_tokens : Int) : ℚ) / 1000 * (MODEL_PRICE_PER_1K m).2 := by
    apply mul_nonneg (by positivity) hp.2
  simpa using add_nonneg h1 h2

theorem add_usage_total_cost (s : BudgetTracker) (u : TokenUsage)
    (m w : Option (List Char)) :
    (add_usage s u m w).total_cost = s.total_cost + estimate_cost m u := by
  unfold add_usage
  cases w <;> simp <;> split_ifs <;> rfl

theorem add_usage_warned (s : BudgetTracker) (u : TokenUsage)
    (m w : Option (List Char)) (h : s.warned = true) :
    (add_usage s u m w).warned = true := by
  unfold add_usage
  cases w <;> simp [h] <;> split_ifs <;> simp_all

/-- C6: across any sequence of `add_usage` calls whose usages have
non-negative token counts, the `total_cost` reported by `snapshot` is
monotonically non-decreasing, and once the `warned` flag is set no later
call clears it. -/
theorem C6_budget_monotone (s : BudgetTracker)
    (calls : List (TokenUsage × Option (List Char) × Option (List Char)))
    (h : ∀ c ∈ calls, 0 ≤ c.1.input_tokens ∧ 0 ≤ c.1.cached_input_tokens ∧
        0 ≤ c.1.output_tokens) :
    (snapshot s).total_cost ≤ (snapshot (add_usage_all s calls)).total_cost
    ∧ (s.warned = true → (add_usage_all s calls).warned = true) := by
  induction calls generalizing s with
  | nil => exact ⟨le_refl _, fun h' => h'⟩
  | cons c rest ih =>
      obtain ⟨u, m, w⟩ := c
      have hc := h _ (List.mem_cons_self _ _)
      have hrest : ∀ c ∈ rest, 0 ≤ c.1.input_tokens ∧ 0 ≤ c.1.cached_input_tokens ∧
          0 ≤ c.1.output_tokens := fun c hcmem => h _ (List.mem_cons_of_mem _ hcmem)
      have hstep : s.total_cost ≤ (add_usage s u m w).total_cost := by
        rw [add_usage_total_cost]
        have := estimate_cost_nonneg m u hc.2.2
        linarith
      have hrec := ih (add_usage s u m w) hrest
      refine ⟨?_, ?_⟩
      · calc (snapshot s).total_cost
            ≤ (snapshot (add_usage s u m w)).total_cost := round6_mono hstep
          _ ≤ (snapshot (add_usage_all (add_usage s u m w) rest)).total_cost := hrec.1
      · intro hw
        exact hrec.2 (add_usage_warned s u m w hw)

/-- Witness for C6 on a concrete two-call sequence. -/
theorem C6_budget_monotone_witness :
    (∀ c ∈ [(({ input_tokens := 1000, cached_input_tokens := 0,
                output_tokens := 1000 } : TokenUsage), some (("o3").toList),
              some (("w1").toList)),
            (({ input_tokens := 5, cached_input_tokens := 9,
                output_tokens := 0 } : TokenUsage), none,
              (none : Option (List Char)))],
        0 ≤ c.1.input_tokens ∧ 0 ≤ c.1.cached_input_tokens ∧ 0 ≤ c.1.output_tokens)
    ∧ ((snapshot { config := {} }).total_cost ≤
        (snapshot (add_usage_all { config := {} }
          [(({ input_tokens := 1000, cached_input_tokens := 0,
               output_tokens := 1000 } : TokenUsage), some (("o3").toList),
             some (("w1").toList)),
           (({ input_tokens := 5, cached_input_tokens := 9,
               output_tokens := 0 } : TokenUsage), none,
             (none : Option (List Char)))])).total_cost
      ∧ (({ config := {} } : BudgetTracker).warned = true →
          (add_usage_all { config := {} }
            [(({ input_tokens := 1000, cached_input_tokens := 0,
                 output_tokens := 1000 } : TokenUsage), some (("o3").toList),
               some (("w1").toList)),
             (({ input_tokens := 5, cached_input_tokens := 9,
                 output_tokens := 0 } : TokenUsage), none,
               (none : Option (List Char)))]).warned = true)) :=
  ⟨by decide, C6_budget_monotone _ _ (by decide)⟩

/- ===== merge mutex (spec section 4.5 / section 5) ===== -/

/-- Modelled from the spec: program counter of one merge attempt inside the
merge-serialization wrapper (`_merge_worker_branch`), which is exercised by
the test suite but absent from the shipped orchestrator module.  Spec 4.5: "A
single mutex serializes all merge attempts against the main working copy." -/
inductive MPc
  | waiting | holding | merging | finished
deriving DecidableEq

/-- Modelled from the spec: shared state of the merge mutex; `holder` is the
task currently holding the mutex. -/
structure MutexState where
  holder : Option Nat
  pc : Nat → MPc

/-- Start and end events of `merge_branch` invocations, as observed by the
serialization property of spec section 5. -/
inductive MergeEvent
  | start (i : Nat)
  | finish (i : Nat)
deriving DecidableEq

/-- Modelled from the spec: one scheduler step of the mutex-guarded merge
wrapper.  A task may acquire the free mutex, begin its `merge_branch` call
while holding it (emitting a start event), and complete the call releasing
the mutex (emitting an end event). -/
inductive MutexStep : MutexState → List MergeEvent → MutexState → Prop
  | acquire (s : MutexState) (i : Nat) (hpc : s.pc i = MPc.waiting)
      (hfree : s.holder = none) :
      MutexStep s [] { holder := some i, pc := Function.update s.pc i MPc.holding }
  | start (s : MutexState) (i : Nat) (hpc : s.pc i = MPc.holding) :
      MutexStep s [MergeEvent.start i]
        { s with pc := Function.update s.pc i MPc.merging }
  | finish (s : MutexState) (i : Nat) (hpc : s.pc i = MPc.merging) :
      MutexStep s [MergeEvent.finish i]
        { holder := none, pc := Function.update s.pc i MPc.finished }

/-- Interleaved executions of any number of merge attempts. -/
inductive MutexExec : MutexState → List MergeEvent → MutexState → Prop
  | done (s : MutexState) : MutexExec s [] s
  | step (s s' s'' : MutexState) (es tr : List MergeEvent)
      (h1 : MutexStep s es s') (h2 : MutexExec s' tr s'') :
      MutexExec s (es ++ tr) s''

/-- Traces whose merge start/end events are non-overlapping: a sequence of
complete start-end pairs, possibly ending in one still-open start. -/
inductive SerialTrace : List MergeEvent → Prop
  | nil : SerialTrace []
  | openOnly (i : Nat) : SerialTrace [MergeEvent.start i]
  | pair (i : Nat) (tr : List MergeEvent) (h : SerialTrace tr) :
      SerialTrace (MergeEvent.start i :: MergeEvent.finish i :: tr)

/-- Trace shapes reachable while task `i` is inside `merge_branch`. -/
def MergeTail (i : Nat) (tr : List MergeEvent) : Prop :=
  tr = [] ∨ ∃ tr', tr = MergeEvent.finish i :: tr' ∧ SerialTrace tr'

/-- Trace shapes reachable while task `i` holds the mutex but has not yet
entered `merge_branch`. -/
def HoldTail (i : Nat) (tr : List MergeEvent) : Prop :=
  tr = [] ∨ ∃ tr', tr = MergeEvent.start i :: tr' ∧ MergeTail i tr'

theorem holdTail_serial {i : Nat} {tr : List MergeEvent} (h : HoldTail i tr) :
    SerialTrace tr := by
  rcases h with rfl | ⟨tr', rfl, h'⟩
  · exact SerialTrace.nil
  · rcases h' with rfl | ⟨tr'', rfl, h''⟩
    · exact SerialTrace.openOnly i
    · exact SerialTrace.pair i tr'' h''

/-- The mutex invariant: the holder is exactly the task whose merge attempt
is between acquisition and release. -/
def MutexInv (s : MutexState) : Prop :=
  ∀ i, s.holder = some i ↔ (s.pc i = MPc.holding ∨ s.pc i = MPc.merging)

theorem mutexStep_inv {s : MutexState} {es : List MergeEvent} {s' : MutexState}
    (h : MutexStep s es s') (hinv : MutexInv s) : MutexInv s' := by
  cases h with
  | acquire i hpc hfree =>
      intro j
      by_cases hj : j = i
      · subst hj
        simp [Function.update_same]
      · have hupd : Function.update s.pc i MPc.holding j = s.pc j :=
          Function.update_noteq hj _ _
        show some i = some j ↔ (Function.update s.pc i MPc.holding j = MPc.holding ∨
          Function.update s.pc i MPc.holding j = MPc.merging)
        rw [hupd]
        constructor
        · intro hcon
          exact absurd (Option.some.inj hcon) (by omega)
        · intro hact
          have := (hinv j).mpr hact
          rw [hfree] at this
          exact absurd this (by simp)
  | start i hpc =>
      intro j
      by_cases hj : j = i
      · subst hj
        have : s.holder = some j := (hinv j).mpr (Or.inl hpc)
        simp [this, Function.update_same]
      · have hupd : Function.update s.pc i MPc.merging j = s.pc j :=
          Function.update_noteq hj _ _
        show s.holder = some j ↔ (Function.update s.pc i MPc.merging j = MPc.holding ∨
          Function.update s.pc i MPc.merging j = MPc.merging)
        rw [hupd]
        exact hinv j
  | finish i hpc =>
      intro j
      by_cases hj : j = i
      · subst hj
        simp [Function.update_same]
      · have hupd : Function.update s.pc i MPc.finished j = s.pc j :=
          Function.update_noteq hj _ _
        show none = some j ↔ (Function.update s.pc i MPc.finished j = MPc.holding ∨
          Function.update s.pc i MPc.finished j = MPc.merging)
        rw [hupd]
        constructor
        · intro hcon
          exact absurd hcon (by simp)
        · intro hact
          have h1 := (hinv j).mpr hact
          have h2 := (hinv i).mpr (Or.inr hpc)
          rw [h1] at h2
          exact absurd (Option.some.inj h2) (by omega)

theorem mutexExec_classify (s : MutexState) (tr : List MergeEvent)
    (s' : MutexState) (hexec : MutexExec s tr s') (hinv : MutexInv s) :
    (s.holder = none → SerialTrace tr)
    ∧ (∀ i, s.holder = some i → s.pc i = MPc.holding → HoldTail i tr)
    ∧ (∀ i, s.holder = some i → s.pc i = MPc.merging → MergeTail i tr) := by
  induction hexec with
  | done s =>
      exact ⟨fun _ => SerialTrace.nil, fun i _ _ => Or.inl rfl,
        fun i _ _ => Or.inl rfl⟩
  | step s s' s'' es tr h1 h2 ih =>
      have hinv' := mutexStep_inv h1 hinv
      have ih' := ih hinv'
      cases h1 with
      | acquire i hpc hfree =>
          refine ⟨fun _ => ?_, ?_, ?_⟩
          · have := ih'.2.1 i (by rfl) (by simp [Function.update_same])
            simpa using holdTail_serial this
          · intro j hj
            rw [hfree] at hj
            exact absurd hj (by simp)
          · intro j hj
            rw [hfree] at hj
            exact absurd hj (by simp)
      | start i hpc =>
          have hold : s.holder = some i := (hinv i).mpr (Or.inl hpc)
          refine ⟨fun hfree => ?_, ?_, ?_⟩
          · rw [hold] at hfree
            exact absurd hfree (by simp)
          · intro j hj hjpc
            have hji : j = i := Option.some.inj (hj.symm.trans hold)
            subst hji
            have := ih'.2.2 j (by simpa using hj) (by simp [Function.update_same])
            exact Or.inr ⟨tr, rfl, this⟩
          · intro j hj hjpc
            have hji : j = i := Option.some.inj (hj.symm.trans hold)
            subst hji
            rw [hjpc] at hpc
            exact absurd hpc (by simp)
      | finish i hpc =>
          have hold : s.holder = some i := (hinv i).mpr (Or.inr hpc)
          refine ⟨fun hfree => ?_, ?_, ?_⟩
          · rw [hold] at hfree
            exact absurd hfree (by simp)
          · intro j hj hjpc
            have hji : j = i := Option.some.inj (hj.symm.trans hold)
            subst hji
            rw [hjpc] at hpc
            exact absurd hpc (by simp)
          · intro j hj hjpc
            have hji : j = i := Option.some.inj (hj.symm.trans hold)
            subst hji
            have := ih'.1 (by rfl)
            exact Or.inr ⟨tr, rfl, this⟩

/-- C4: in every schedule of mutex-guarded merge attempts (auto-merges and
explicit merge_results dispatches alike) starting from the idle state, the
`merge_branch` start/end events form a non-overlapping, totally ordered
sequence: the trace is a sequence of complete start-end pairs, possibly
ending in one still-open call. -/
theorem C4_merge_serialized (tr : List MergeEvent) (s' : MutexState)
    (hexec : MutexExec { holder := none, pc := fun _ => MPc.waiting } tr s') :
    SerialTrace tr :=
  (mutexExec_classify _ tr s' hexec (by intro i; simp)).1 rfl

/-- Witness for C4: a concrete schedule of two serialized merge attempts. -/
theorem C4_merge_serialized_witness :
    (∃ s' : MutexState,
      MutexExec { holder := none, pc := fun _ => MPc.waiting }
        [MergeEvent.start 0, MergeEvent.finish 0,
          MergeEvent.start 1, MergeEvent.finish 1] s')
    ∧ SerialTrace [MergeEvent.start 0, MergeEvent.finish 0,
        MergeEvent.start 1, MergeEvent.finish 1] := by
  have hexec : MutexExec { holder := none, pc := fun _ => MPc.waiting }
      [MergeEvent.start 0, MergeEvent.finish 0,
        MergeEvent.start 1, MergeEvent.finish 1]
      { holder := none,
        pc := Function.update (Function.update (Function.update (Function.update
          (Function.update (Function.update (fun _ => MPc.waiting)
            0 MPc.holding) 0 MPc.merging) 0 MPc.finished)
            1 MPc.holding) 1 MPc.merging) 1 MPc.finished } := by
    refine MutexExec.step _ _ _ _ _ (MutexStep.acquire _ 0 rfl rfl) ?_
    refine MutexExec.step _ _ _ _ _ (MutexStep.start _ 0 (by simp)) ?_
    refine MutexExec.step _ _ _ _ _ (MutexStep.finish _ 0 (by simp)) ?_
    refine MutexExec.step _ _ _ _ _ (MutexStep.acquire _ 1 (by simp) rfl) ?_
    refine MutexExec.step _ _ _ _ _ (MutexStep.start _ 1 (by simp)) ?_
    refine MutexExec.step _ _ _ _ _ (MutexStep.finish _ 1 (by simp)) ?_
    exact MutexExec.done _
  exact ⟨⟨_, hexec⟩, C4_merge_serialized _ _ hexec⟩

/- ===== strategy_engine.py: execute_pipeline ===== -/

/-- The fields of a `WorkerExecutionResult` that `execute_pipeline` reads:
`worker_id`, lifecycle `status`, and `result.summary`. -/
structure PipeResult where
  worker_id : List Char
  status : WorkerStatus
  summary : List Char
deriving DecidableEq

/-- The rolling-context update of `StrategyEngine.execute_pipeline`
(strategy_engine.py lines 84-87): the accumulated context is formatted with
the previous step's worker id and summary, then stripped. -/
def rollingUpdate (rolling wid summary : List Char) : List Char :=
  pyStrip (rolling ++ ("\n\nPrevious step ").toList ++ wid ++
    (" summary:\n").toList ++ summary)

/-- `StrategyEngine.execute_pipeline` (strategy_engine.py lines 67-92),
instrumented to record the `extra_context` passed to each `run_task` call
alongside its result.  `run` is the behaviour of `WorkerManager.run_task`
as a function of the task and the extra context. -/
def pipelineAux {α : Type} (cont : Bool) (run : α → List Char → PipeResult) :
    List α → List Char → List (PipeResult × List Char)
  | [], _ => []
  | t :: ts, rolling =>
      let r := run t rolling
      let rolling' := rollingUpdate rolling r.worker_id r.summary
      if ¬ cont ∧ (r.status = WorkerStatus.failed ∨ r.status = WorkerStatus.timed_out) then
        [(r, rolling)]
      else
        (r, rolling) :: pipelineAux cont run ts rolling'

/-- The result list returned by `execute_pipeline`. -/
def execute_pipeline {α : Type} (cont : Bool) (run : α → List Char → PipeResult)
    (tasks : List α) (base_context : List Char) : List PipeResult :=
  (pipelineAux cont run tasks base_context).map Prod.fst

theorem pipelineAux_head {α : Type} (cont : Bool)
    (run : α → List Char → PipeResult) (tasks : List α) (base : List Char)
    (h : tasks ≠ []) :
    ((pipelineAux cont run tasks base).map Prod.snd).head? = some base := by
  cases tasks with
  | nil => exact absurd rfl h
  | cons t ts =>
      simp only [pipelineAux]
      split_ifs <;> simp

theorem pipelineAux_chain {α : Type} (cont : Bool)
    (run : α → List Char → PipeResult) (tasks : List α) (base : List Char) :
    List.Chain' (fun a b => b.2 = rollingUpdate a.2 a.1.worker_id a.1.summary)
      (pipelineAux cont run tasks base) := by
  induction tasks generalizing base with
  | nil => simp [pipelineAux]
  | cons t ts ih =>
      simp only [pipelineAux]
      split_ifs with hbrk
      · simp
      · rw [List.chain'_cons']
        refine ⟨?_, ih _⟩
        intro b hb
        cases hts : ts with
        | nil => simp [hts, pipelineAux] at hb
        | cons t' ts' =>
            have hhead := pipelineAux_head cont run ts
              (rollingUpdate base (run t base).worker_id (run t base).summary)
              (by simp [hts])
            rw [List.head?_map] at hhead
            rw [hb] at hhead
            simpa using hhead

theorem pipelineAux_len_all {α : Type} (run : α → List Char → PipeResult)
    (tasks : List α) (base : List Char) :
    (pipelineAux true run tasks base).length = tasks.length := by
  induction tasks generalizing base with
  | nil => simp [pipelineAux]
  | cons t ts ih => simp [pipelineAux, ih]

theorem pipelineAux_cons_bad {α : Type} (run : α → List Char → PipeResult)
    (t : α) (ts : List α) (base : List Char)
    (h : (run t base).status = WorkerStatus.failed ∨
      (run t base).status = WorkerStatus.timed_out) :
    pipelineAux false run (t :: ts) base = [(run t base, base)] := by
  simp [pipelineAux, h]

theorem pipelineAux_cons_good {α : Type} (run : α → List Char → PipeResult)
    (t : α) (ts : List α) (base : List Char)
    (h : ¬ ((run t base).status = WorkerStatus.failed ∨
      (run t base).status = WorkerStatus.timed_out)) :
    pipelineAux false run (t :: ts) base =
      (run t base, base) :: pipelineAux false run ts
        (rollingUpdate base (run t base).worker_id (run t base).summary) := by
  simp [pipelineAux, h]

theorem pipelineAux_cons_true {α : Type} (run : α → List Char → PipeResult)
    (t : α) (ts : List α) (base : List Char) :
    pipelineAux true run (t :: ts) base =
      (run t base, base) :: pipelineAux true run ts
        (rollingUpdate base (run t base).worker_id (run t base).summary) := by
  simp [pipelineAux]

theorem pipelineAux_stop {α : Type} (run : α → List Char → PipeResult)
    (tasks : List α) (base : List Char) :
    ∃ k, k ≤ tasks.length
      ∧ pipelineAux false run tasks base = pipelineAux true run (tasks.take k) base
      ∧ (pipelineAux false run tasks base).length = k
      ∧ (∀ p ∈ (pipelineAux false run tasks base).dropLast,
          ¬ (p.1.status = WorkerStatus.failed ∨ p.1.status = WorkerStatus.timed_out))
      ∧ (k < tasks.length →
          ∃ p, (pipelineAux false run tasks base).getLast? = some p
            ∧ (p.1.status = WorkerStatus.failed ∨ p.1.status = WorkerStatus.timed_out)) := by
  induction tasks generalizing base with
  | nil => exact ⟨0, by simp [pipelineAux]⟩
  | cons t ts ih =>
      by_cases hbad : (run t base).status = WorkerStatus.failed ∨
          (run t base).status = WorkerStatus.timed_out
      · refine ⟨1, by simp, ?_, ?_, ?_, ?_⟩
        · rw [pipelineAux_cons_bad run t ts base hbad]
          simp [pipelineAux]
        · rw [pipelineAux_cons_bad run t ts base hbad]
          rfl
        · rw [pipelineAux_cons_bad run t ts base hbad]
          simp
        · intro hlt
          refine ⟨(run t base, base), ?_, hbad⟩
          rw [pipelineAux_cons_bad run t ts base hbad]
          rfl
      · obtain ⟨k, hk, heq, hlen, hmid, hlast⟩ :=
          ih (rollingUpdate base (run t base).worker_id (run t base).summary)
        refine ⟨k + 1, by simpa using hk, ?_, ?_, ?_, ?_⟩
        · rw [pipelineAux_cons_good run t ts base hbad, heq, List.take_succ_cons,
            pipelineAux_cons_true]
        · rw [pipelineAux_cons_good run t ts base hbad]
          simp [hlen]
        · rw [pipelineAux_cons_good run t ts base hbad]
          intro p hp
          rcases hlen0 : pipelineAux false run ts
              (rollingUpdate base (run t base).worker_id (run t base).summary) with
            _ | ⟨hd, tl⟩
          · rw [hlen0] at hp
            simp at hp
          · rw [hlen0] at hp
            rw [List.dropLast_cons_of_ne_nil (by simp)] at hp
            rcases List.mem_cons.mp hp with rfl | hp'
            · exact hbad
            · refine hmid p ?_
              rw [hlen0]
              exact hp'
        · intro hlt
          have hklt : k < ts.length := by simpa using hlt
          obtain ⟨p, hp1, hp2⟩ := hlast hklt
          refine ⟨p, ?_, hp2⟩
          rw [pipelineAux_cons_good run t ts base hbad]
          rcases hrest : pipelineAux false run ts
              (rollingUpdate base (run t base).worker_id (run t base).summary) with
            _ | ⟨hd, tl⟩
          · rw [hrest] at hp1
            simp at hp1
          · rw [hrest] at hp1
            rw [List.getLast?_cons_cons]
            exact hp1

/-- C8 as literally stated is false: with an empty base context, the context
passed to the second task is the *stripped* rolling context, which lacks the
leading blank line of the claimed template "<prior>\n\nPrevious step <wid>
summary:\n<summary>". -/
theorem C8_counterexample :
    ((pipelineAux false
        (fun (_ : Nat) (_ : List Char) =>
          ({ worker_id := ("A").toList, status := WorkerStatus.completed,
             summary := ("s").toList } : PipeResult)) [0, 1] []).map Prod.snd) =
      [[], ("Previous step A summary:\ns").toList]
    ∧ ("Previous step A summary:\ns").toList ≠
        (([] : List Char) ++ ("\n\nPrevious step A summary:\ns").toList) := by
  constructor
  · decide
  · decide

/-- C8 (amended): `execute_pipeline` dispatches its tasks strictly
sequentially; the first task receives the base context and each subsequent
task receives the accumulated rolling context
strip("<prior>\n\nPrevious step <wid> summary:\n<summary>"); with
`pipeline_continue_on_error` false the returned results are exactly those of
the first k tasks for some k, every returned step except possibly the last is
neither failed nor timed_out, and the run stops before the end only at a
failed or timed_out step; with `pipeline_continue_on_error` true all tasks
run and all results are returned. -/
theorem C8_pipeline {α : Type} (cont : Bool) (run : α → List Char → PipeResult)
    (tasks : List α) (base : List Char) :
    (tasks ≠ [] → ((pipelineAux cont run tasks base).map Prod.snd).head? = some base)
    ∧ List.Chain' (fun a b => b.2 = rollingUpdate a.2 a.1.worker_id a.1.summary)
        (pipelineAux cont run tasks base)
    ∧ (cont = true → (execute_pipeline cont run tasks base).length = tasks.length)
    ∧ (cont = false →
        ∃ k, k ≤ tasks.length
          ∧ execute_pipeline cont run tasks base =
              execute_pipeline true run (tasks.take k) base
          ∧ (execute_pipeline cont run tasks base).length = k
          ∧ (∀ p ∈ (pipelineAux cont run tasks base).dropLast,
              ¬ (p.1.status = WorkerStatus.failed ∨
                  p.1.status = WorkerStatus.timed_out))
          ∧ (k < tasks.length →
              ∃ p, (pipelineAux cont run tasks base).getLast? = some p
                ∧ (p.1.status = WorkerStatus.failed ∨
                    p.1.status = WorkerStatus.timed_out))) := by
  refine ⟨pipelineAux_head cont run tasks base,
    pipelineAux_chain cont run tasks base, ?_, ?_⟩
  · intro hc
    subst hc
    simp [execute_pipeline, pipelineAux_len_all]
  · intro hc
    subst hc
    obtain ⟨k, hk, heq, hlen, hmid, hlast⟩ := pipelineAux_stop run tasks base
    exact ⟨k, hk, by simp [execute_pipeline, heq], by simp [execute_pipeline, hlen],
      hmid, hlast⟩

/-- Witness for C8 on a concrete two-task pipeline whose first step fails. -/
theorem C8_pipeline_witness :
    (([0, 1] : List Nat) ≠ [])
    ∧ ((([0, 1] : List Nat) ≠ [] →
        ((pipelineAux false
            (fun (_ : Nat) (_ : List Char) =>
              ({ worker_id := ("A").toList, status := WorkerStatus.failed,
                 summary := ("s").toList } : PipeResult)) [0, 1] []).map
            Prod.snd).head? = some [])
      ∧ List.Chain' (fun a b => b.2 = rollingUpdate a.2 a.1.worker_id a.1.summary)
          (pipelineAux false
            (fun (_ : Nat) (_ : List Char) =>
              ({ worker_id := ("A").toList, status := WorkerStatus.failed,
                 summary := ("s").toList } : PipeResult)) [0, 1] [])
      ∧ (false = true →
          (execute_pipeline false
            (fun (_ : Nat) (_ : List Char) =>
              ({ worker_id := ("A").toList, status := WorkerStatus.failed,
                 summary := ("s").toList } : PipeResult)) [0, 1] []).length =
            ([0, 1] : List Nat).length)
      ∧ (false = false →
          ∃ k, k ≤ ([0, 1] : List Nat).length
            ∧ execute_pipeline false
                (fun (_ : Nat) (_ : List Char) =>
                  ({ worker_id := ("A").toList, status := WorkerStatus.failed,
                     summary := ("s").toList } : PipeResult)) [0, 1] [] =
                execute_pipeline true
                  (fun (_ : Nat) (_ : List Char) =>
                    ({ worker_id := ("A").toList, status := WorkerStatus.failed,
                       summary := ("s").toList } : PipeResult))
                  (([0, 1] : List Nat).take k) []
            ∧ (execute_pipeline false
                (fun (_ : Nat) (_ : List Char) =>
                  ({ worker_id := ("A").toList, status := WorkerStatus.failed,
                     summary := ("s").toList } : PipeResult)) [0, 1] []).length = k
            ∧ (∀ p ∈ (pipelineAux false
                (fun (_ : Nat) (_ : List Char) =>
                  ({ worker_id := ("A").toList, status := WorkerStatus.failed,
                     summary := ("s").toList } : PipeResult)) [0, 1] []).dropLast,
                ¬ (p.1.status = WorkerStatus.failed ∨
                    p.1.status = WorkerStatus.timed_out))
            ∧ (k < ([0, 1] : List Nat).length →
                ∃ p, (pipelineAux false
                  (fun (_ : Nat) (_ : List Char) =>
                    ({ worker_id := ("A").toList, status := WorkerStatus.failed,
                       summary := ("s").toList } : PipeResult)) [0, 1] []).getLast? =
                    some p
                  ∧ (p.1.status = WorkerStatus.failed ∨
                      p.1.status = WorkerStatus.timed_out)))) :=
  ⟨by decide,
    C8_pipeline false
      (fun (_ : Nat) (_ : List Char) =>
        ({ worker_id := ("A").toList, status := WorkerStatus.failed,
           summary := ("s").toList } : PipeResult)) [0, 1] []⟩

/- ===== dispatch_parser.py: JSON values and payload coercers ===== -/

/-- Python values decoded from a JSON body by `json.loads`: JSON `null`
decodes to Python `None`, objects to dicts (later duplicate keys win),
numbers to int/float (modelled as one rational field). -/
inductive Json where
  | null
  | bool (b : Bool)
  | num (q : ℚ)
  | str (s : List Char)
  | arr (elems : List Json)
  | obj (fields : List (List Char × Json))

/-- Python `d.get(k)` on a decoded object: the last entry for `k` wins
(duplicate-key JSON objects collapse last-wins in `json.loads`); an absent
key gives `None`, indistinguishable from a JSON `null` value. -/
def pyGetF (fields : List (List Char × Json)) (k : List Char) : Json :=
  match fields.reverse.find? (fun p => decide (p.1 = k)) with
  | some p => p.2
  | none => Json.null

/-- `payload.get(k)` where `payload` is a decoded JSON object. -/
def Json.get (j : Json) (k : List Char) : Json :=
  match j with
  | .obj fields => pyGetF fields k
  | _ => .null

/-- Python truthiness of a decoded JSON value. -/
def Json.truthy : Json → Bool
  | .null => false
  | .bool b => b
  | .num q => decide (q ≠ 0)
  | .str s => decide (s ≠ [])
  | .arr [] => false
  | .arr (_ :: _) => true
  | .obj [] => false
  | .obj (_ :: _) => true

/-- Python `a or b`. -/
def pyOr (a b : Json) : Json :=
  if a.truthy then a else b

/-- The apostrophe character used by Python `repr` of strings. -/
def squote : Char := Char.ofNat 39

/-- Comma-join of repr pieces. -/
def reprJoin : List (List Char) → List Char
  | [] => []
  | [x] => x
  | x :: rest => x ++ (", ").toList ++ reprJoin rest

/- Python `repr` of a decoded JSON value (string quoting is modelled without
escape handling, which only matters for quotes inside nested strings). -/
mutual

def pyRepr : Json → List Char
  | .null => ("None").toList
  | .bool true => ("True").toList
  | .bool false => ("False").toList
  | .num q => if q.den = 1 then (toString q.num).toList else (toString q).toList
  | .str s => [squote] ++ s ++ [squote]
  | .arr l => ("[").toList ++ reprJoin (reprList l) ++ ("]").toList
  | .obj f => ("\x7b").toList ++ reprJoin (reprFields f) ++ ("\x7d").toList

def reprList : List Json → List (List Char)
  | [] => []
  | j :: rest => pyRepr j :: reprList rest

def reprFields : List (List Char × Json) → List (List Char)
  | [] => []
  | (k, v) :: rest =>
      ([squote] ++ k ++ [squote] ++ (": ").toList ++ pyRepr v) :: reprFields rest

end

/-- Python `str()` of a decoded JSON value. -/
def pyStr (j : Json) : List Char :=
  match j with
  | .str s => s
  | _ => pyRepr j

/-- `_coerce_scope` (dispatch_parser.py lines 47-52). -/
def coerce_scope (value : Json) : List (List Char) :=
  match value with
  | .arr items => items.map pyStr
  | .str s => if pyStrip s ≠ [] then [pyStrip s] else []
  | _ => []

/-- `_coerce_priority` (dispatch_parser.py lines 55-61). -/
def coerce_priority (value : Json) : List Char :=
  match value with
  | .str s =>
      let lowered := pyLower (pyStrip s)
      if lowered = ("high").toList ∨ lowered = ("normal").toList ∨
          lowered = ("low").toList then
        lowered
      else ("normal").toList
  | _ => ("normal").toList

/-- Boolean test that `needle` is a prefix of `hay`. -/
def prefixTest : List Char → List Char → Bool
  | [], _ => true
  | _ :: _, [] => false
  | a :: as, b :: bs => decide (a = b) && prefixTest as bs

/-- Python substring containment `needle in hay`. -/
def containsSub (needle hay : List Char) : Bool :=
  match hay with
  | [] => prefixTest needle []
  | _ :: t => prefixTest needle hay || containsSub needle t

/-- `_coerce_return_format` (dispatch_parser.py lines 64-74). -/
def coerce_return_format (value : Json) : List Char :=
  match value with
  | .str s =>
      let lowered := pyLower (pyStrip s)
      if lowered = ("summary").toList ∨ lowered = ("diff").toList ∨
          lowered = ("full").toList then
        lowered
      else if lowered = ("summary+test-results").toList ∨
          lowered = ("summary_and_tests").toList then
        ("summary").toList
      else if containsSub (("diff").toList) lowered then
        ("diff").toList
      else ("summary").toList
  | _ => ("summary").toList

/-- Python `str.replace` for a single-character needle. -/
def pyReplaceChar (a b : Char) (s : List Char) : List Char :=
  s.map (fun c => if c = a then b else c)

/-- `_coerce_strategy` (dispatch_parser.py lines 104-110). -/
def coerce_strategy (value : Json) : List Char :=
  match value with
  | .str s =>
      let candidate := pyReplaceChar ' ' '-' (pyReplaceChar '_' '-' (pyLower (pyStrip s)))
      if candidate = ("fan-out").toList ∨ candidate = ("pipeline").toList ∨
          candidate = ("map-reduce").toList ∨ candidate = ("debate").toList then
        candidate
      else ("fan-out").toList
  | _ => ("fan-out").toList

theorem coerce_priority_mem (v : Json) :
    coerce_priority v = ("high").toList ∨ coerce_priority v = ("normal").toList ∨
      coerce_priority v = ("low").toList := by
  cases v with
  | str s =>
      simp only [coerce_priority]
      split_ifs with h
      · rcases h with h | h | h <;> simp [h]
      · simp
  | null => simp [coerce_priority]
  | bool b => simp [coerce_priority]
  | num q => simp [coerce_priority]
  | arr l => simp [coerce_priority]
  | obj f => simp [coerce_priority]

theorem coerce_return_format_mem (v : Json) :
    coerce_return_format v = ("summary").toList ∨
      coerce_return_format v = ("diff").toList ∨
      coerce_return_format v = ("full").toList := by
  cases v with
  | str s =>
      simp only [coerce_return_format]
      split_ifs with h1 h2 h3
      · rcases h1 with h | h | h <;> simp [h]
      · simp
      · simp
      · simp
  | null => simp [coerce_return_format]
  | bool b => simp [coerce_return_format]
  | num q => simp [coerce_return_format]
  | arr l => simp [coerce_return_format]
  | obj f => simp [coerce_return_format]

theorem coerce_strategy_mem (v : Json) :
    coerce_strategy v = ("fan-out").toList ∨ coerce_strategy v = ("pipeline").toList ∨
      coerce_strategy v = ("map-reduce").toList ∨
      coerce_strategy v = ("debate").toList := by
  cases v with
  | str s =>
      simp only [coerce_strategy]
      split_ifs with h
      · rcases h with h | h | h | h <;> simp [h]
      · simp
  | null => simp [coerce_strategy]
  | bool b => simp [coerce_strategy]
  | num q => simp [coerce_strategy]
  | arr l => simp [coerce_strategy]
  | obj f => simp [coerce_strategy]

/-- C10: the three payload coercers are idempotent on every value and act as
the identity on every canonical value; in particular "full" is preserved. -/
theorem C10_coercers_idempotent (v : Json) :
    (coerce_priority (Json.str (coerce_priority v)) = coerce_priority v
      ∧ coerce_return_format (Json.str (coerce_return_format v)) =
          coerce_return_format v
      ∧ coerce_strategy (Json.str (coerce_strategy v)) = coerce_strategy v)
    ∧ (coerce_priority (Json.str (("high").toList)) = ("high").toList
      ∧ coerce_priority (Json.str (("normal").toList)) = ("normal").toList
      ∧ coerce_priority (Json.str (("low").toList)) = ("low").toList)
    ∧ (coerce_return_format (Json.str (("summary").toList)) = ("summary").toList
      ∧ coerce_return_format (Json.str (("diff").toList)) = ("diff").toList
      ∧ coerce_return_format (Json.str (("full").toList)) = ("full").toList)
    ∧ (coerce_strategy (Json.str (("fan-out").toList)) = ("fan-out").toList
      ∧ coerce_strategy (Json.str (("pipeline").toList)) = ("pipeline").toList
      ∧ coerce_strategy (Json.str (("map-reduce").toList)) = ("map-reduce").toList
      ∧ coerce_strategy (Json.str (("debate").toList)) = ("debate").toList) := by
  refine ⟨⟨?_, ?_, ?_⟩, ⟨?_, ?_, ?_⟩, ⟨?_, ?_, ?_⟩, ⟨?_, ?_, ?_, ?_⟩⟩
  · rcases coerce_priority_mem v with h | h | h <;> rw [h] <;> rfl
  · rcases coerce_return_format_mem v with h | h | h <;> rw [h] <;> rfl
  · rcases coerce_strategy_mem v with h | h | h | h <;> rw [h] <;> rfl
  all_goals rfl

/- ===== dispatch_parser.py: JSON text decoding ===== -/

/-- JSON whitespace accepted between tokens by `json.loads`. -/
def jsonWs (c : Char) : Bool :=
  c = ' ' || c = '\t' || c = '\n' || c = '\r'

/-- Skip JSON whitespace. -/
def skipWs (s : List Char) : List Char :=
  s.dropWhile jsonWs

/-- ASCII digit test. -/
def isDigit (c : Char) : Bool :=
  decide ('0' ≤ c ∧ c ≤ '9')

/-- Hex digit value, 16 for non-hex characters. -/
def hexVal (c : Char) : Nat :=
  if isDigit c then c.toNat - 48
  else if decide ('a' ≤ c ∧ c ≤ 'f') then c.toNat - 87
  else if decide ('A' ≤ c ∧ c ≤ 'F') then c.toNat - 55
  else 16

/-- Decimal value of a digit string. -/
def digitsToNat (s : List Char) : Nat :=
  s.foldl (fun n c => n * 10 + (c.toNat - 48)) 0

/-- The opening and closing braces and the double quote, named so they can be
used in patterns. -/
def lbrace : Char := Char.ofNat 123

def rbrace : Char := Char.ofNat 125

def dquote : Char := Char.ofNat 34

def bslash : Char := Char.ofNat 92

/-- Body of a JSON string after the opening quote (escape handling for the
standard single-character escapes and non-surrogate `\uXXXX`). -/
def parseStringBody : Nat → List Char → Option (List Char × List Char)
  | 0, _ => none
  | _ + 1, [] => none
  | fuel + 1, c :: rest =>
      if c = dquote then some ([], rest)
      else if c = bslash then
        match rest with
        | [] => none
        | e :: rest2 =>
            if e = 'u' then
              match rest2 with
              | h1 :: h2 :: h3 :: h4 :: rest3 =>
                  if hexVal h1 < 16 ∧ hexVal h2 < 16 ∧ hexVal h3 < 16 ∧ hexVal h4 < 16 then
                    match parseStringBody fuel rest3 with
                    | some (tail, rem) =>
                        some (Char.ofNat
                          (((hexVal h1 * 16 + hexVal h2) * 16 + hexVal h3) * 16 + hexVal h4)
                          :: tail, rem)
                    | none => none
                  else none
              | _ => none
            else
              let esc : Option Char :=
                if e = dquote then some dquote
                else if e = bslash then some bslash
                else if e = '/' then some '/'
                else if e = 'n' then some '\n'
                else if e = 't' then some '\t'
                else if e = 'r' then some '\r'
                else if e = 'b' then some (Char.ofNat 8)
                else if e = 'f' then some (Char.ofNat 12)
                else none
              match esc with
              | some ch =>
                  match parseStringBody fuel rest2 with
                  | some (tail, rem) => some (ch :: tail, rem)
                  | none => none
              | none => none
      else
        match parseStringBody fuel rest with
        | some (tail, rem) => some (c :: tail, rem)
        | none => none

/-- Exponent suffix of a JSON number. -/
def parseExp (v : ℚ) (s : List Char) : Option (ℚ × List Char) :=
  match s with
  | c :: rest =>
      if c = 'e' ∨ c = 'E' then
        let (neg, rest2) :=
          match rest with
          | '-' :: r => (true, r)
          | '+' :: r => (false, r)
          | r => (false, r)
        let ds := rest2.takeWhile isDigit
        if ds = [] then none
        else
          let e := digitsToNat ds
          let v' := if neg then v / (10 : ℚ) ^ e else v * (10 : ℚ) ^ e
          some (v', rest2.dropWhile isDigit)
      else some (v, s)
  | [] => some (v, s)

/-- JSON number literal (strict grammar: no leading zeros, mandatory digits
around the decimal point). -/
def parseNumber (s : List Char) : Option (ℚ × List Char) :=
  let (neg, s1) :=
    match s with
    | '-' :: r => (true, r)
    | r => (false, r)
  match s1 with
  | [] => none
  | c :: _ =>
      if ¬ isDigit c then none
      else
        let intDigits := s1.takeWhile isDigit
        let rest1 := s1.dropWhile isDigit
        if c = '0' ∧ intDigits.length > 1 then none
        else
          let ipart : ℚ := (digitsToNat intDigits : ℚ)
          let fracParsed : Option (ℚ × List Char) :=
            match rest1 with
            | '.' :: r2 =>
                let fd := r2.takeWhile isDigit
                if fd = [] then none
                else some (ipart + (digitsToNat fd : ℚ) / (10 : ℚ) ^ fd.length,
                  r2.dropWhile isDigit)
            | _ => some (ipart, rest1)
          match fracParsed with
          | none => none
          | some (v, rest2) =>
              match parseExp v rest2 with
              | some (v', rest3) => some (if neg then -v' else v', rest3)
              | none => none

mutual

/-- Recursive-descent JSON value parser (fuel-indexed; the wrapper below
supplies fuel ample for any input). -/
def parseJsonVal : Nat → List Char → Option (Json × List Char)
  | 0, _ => none
  | fuel + 1, s =>
      match skipWs s with
      | [] => none
      | c :: rest =>
          if c = dquote then
            match parseStringBody (rest.length + 1) rest with
            | some (str, rem) => some (Json.str str, rem)
            | none => none
          else if c = '[' then
            match skipWs rest with
            | ']' :: rem => some (Json.arr [], rem)
            | _ =>
                match parseArrItems fuel rest with
                | some (items, rem) => some (Json.arr items, rem)
                | none => none
          else if c = lbrace then
            match skipWs rest with
            | r :: rem =>
                if r = rbrace then some (Json.obj [], rem)
                else
                  match parseObjItems fuel rest with
                  | some (fields, rem') => some (Json.obj fields, rem')
                  | none => none
            | [] => none
          else if prefixTest (("true").toList) (c :: rest) then
            some (Json.bool true, (c :: rest).drop 4)
          else if prefixTest (("false").toList) (c :: rest) then
            some (Json.bool false, (c :: rest).drop 5)
          else if prefixTest (("null").toList) (c :: rest) then
            some (Json.null, (c :: rest).drop 4)
          else
            match parseNumber (c :: rest) with
            | some (q, rem) => some (Json.num q, rem)
            | none => none

/-- Comma-separated array items up to the closing bracket. -/
def parseArrItems : Nat → List Char → Option (List Json × List Char)
  | 0, _ => none
  | fuel + 1, s =>
      match parseJsonVal fuel s with
      | none => none
      | some (v, rem) =>
          match skipWs rem with
          | ',' :: rem2 =>
              match parseArrItems fuel rem2 with
              | some (items, rem3) => some (v :: items, rem3)
              | none => none
          | ']' :: rem2 => some ([v], rem2)
          | _ => none

/-- Comma-separated object members up to the closing brace. -/
def parseObjItems : Nat → List Char → Option (List (List Char × Json) × List Char)
  | 0, _ => none
  | fuel + 1, s =>
      match skipWs s with
      | c :: rest =>
          if c = dquote then
            match parseStringBody (rest.length + 1) rest with
            | some (key, rem) =>
                match skipWs rem with
                | ':' :: rem2 =>
                    match parseJsonVal fuel rem2 with
                    | none => none
                    | some (v, rem3) =>
                        match skipWs rem3 with
                        | ',' :: rem4 =>
                            match parseObjItems fuel rem4 with
                            | some (fields, rem5) => some ((key, v) :: fields, rem5)
                            | none => none
                        | r :: rem4 =>
                            if r = rbrace then some ([(key, v)], rem4) else none
                        | [] => none
                | _ => none
            | none => none
          else none
      | [] => none

end

/-- `json.loads`: parse a complete JSON document (trailing whitespace
allowed). -/
def decodeJson (s : List Char) : Option Json :=
  match parseJsonVal (4 * s.length + 8) s with
  | some (j, rest) => if skipWs rest = [] then some j else none
  | none => none

/- ===== dispatch_parser.py: repair and payload validation ===== -/

/-- The substitution `re.sub(",\\s*([}\\]])", "\\1", s)` of `_repair_json`:
drop a comma (and the whitespace after it) that directly precedes a closing
brace or bracket (fuel-indexed; every step consumes at least one input
character, so fuel equal to the input length suffices). -/
def removeTrailingCommasF : Nat → List Char → List Char
  | 0, s => s
  | _ + 1, [] => []
  | fuel + 1, c :: rest =>
      if c = ',' then
        match rest.dropWhile pyIsWs with
        | d :: r2 =>
            if d = rbrace ∨ d = ']' then d :: removeTrailingCommasF fuel r2
            else c :: removeTrailingCommasF fuel rest
        | [] => c :: removeTrailingCommasF fuel rest
      else c :: removeTrailingCommasF fuel rest

/-- The comma substitution at adequate fuel. -/
def removeTrailingCommas (s : List Char) : List Char :=
  removeTrailingCommasF s.length s

/-- `_repair_json` (dispatch_parser.py lines 26-31). -/
def repairJson (raw : List Char) : List Char :=
  let repaired := pyStrip raw
  let repaired := removeTrailingCommas repaired
  if squote ∈ repaired ∧ ¬ dquote ∈ repaired then
    pyReplaceChar squote dquote repaired
  else repaired

/-- `_parse_json_payload` (dispatch_parser.py lines 34-44): decode, retrying
once on the repaired text, and require a JSON object. -/
def parse_json_payload (raw : List Char) : Option Json :=
  let parsed? :=
    match decodeJson raw with
    | some j => some j
    | none => decodeJson (repairJson raw)
  match parsed? with
  | some (Json.obj f) => some (Json.obj f)
  | _ => none

/-- Key-membership `k in payload` on a decoded object. -/
def hasKeyF (fields : List (List Char × Json)) (k : List Char) : Bool :=
  fields.any (fun p => decide (p.1 = k))

/-- `k in payload` for a decoded JSON value. -/
def Json.hasKey (j : Json) (k : List Char) : Bool :=
  match j with
  | .obj f => hasKeyF f k
  | _ => false

/-- The `scope | files | paths` and `context | notes | constraints` key
chains of `_normalize_spawn_agent_payload`, which use `is None` tests. -/
def firstNonNull (payload : Json) (k1 k2 k3 : List Char) : Json :=
  match payload.get k1 with
  | Json.null =>
      match payload.get k2 with
      | Json.null => payload.get k3
      | v => v
  | v => v

/-- `_normalize_spawn_agent_payload` (dispatch_parser.py lines 77-101).  The
final `SpawnAgentPayload.model_validate(...).model_dump()` step is the
identity on the constructed dict: every field is built with the right type
and the enum fields are coerced into their value sets beforehand. -/
def normalize_spawn_agent (payload : Json) : Option Json :=
  match pyOr (payload.get (("task").toList))
      (pyOr (payload.get (("objective").toList))
        (payload.get (("description").toList))) with
  | Json.str s =>
      if pyStrip s = [] then none
      else
        some (Json.obj
          [(("task").toList, Json.str (pyStrip s)),
           (("scope").toList,
             Json.arr ((coerce_scope (firstNonNull payload (("scope").toList)
               (("files").toList) (("paths").toList))).map Json.str)),
           (("context").toList,
             Json.str (pyStr (pyOr (firstNonNull payload (("context").toList)
               (("notes").toList) (("constraints").toList)) (Json.str [])))),
           (("priority").toList,
             Json.str (coerce_priority (payload.get (("priority").toList)))),
           (("return_format").toList,
             Json.str (coerce_return_format (payload.get (("return_format").toList))))])
  | _ => none

/-- The task-collection loops of `_normalize_spawn_swarm_payload`: dict
items are normalized (normalization errors propagate), non-dict items are
skipped. -/
def normTaskItems : List Json → Option (List Json)
  | [] => some []
  | Json.obj f :: rest =>
      match normalize_spawn_agent (Json.obj f) with
      | some t =>
          match normTaskItems rest with
          | some ts => some (t :: ts)
          | none => none
      | none => none
  | _ :: rest => normTaskItems rest

/-- The `tasks | workers | self` fallback chain of
`_normalize_spawn_swarm_payload` (dispatch_parser.py lines 113-132). -/
def swarmTasks (payload : Json) : Option (List Json) :=
  let fromTasks : Option (List Json) :=
    match payload.get (("tasks").toList) with
    | Json.arr items => normTaskItems items
    | _ => some []
  match fromTasks with
  | none => none
  | some (t :: ts) => some (t :: ts)
  | some [] =>
      let fromWorkers : Option (List Json) :=
        match payload.get (("workers").toList) with
        | Json.arr items => normTaskItems items
        | _ => some []
      match fromWorkers with
      | none => none
      | some (w :: ws) => some (w :: ws)
      | some [] =>
          if payload.hasKey (("task").toList) ∨ payload.hasKey (("objective").toList) ∨
              payload.hasKey (("description").toList) then
            match normalize_spawn_agent payload with
            | some t => some [t]
            | none => none
          else some []

/-- `bool(payload.get("wait", True))`: the only lookup with a non-None
default, so key presence matters. -/
def waitVal (payload : Json) : Bool :=
  if payload.hasKey (("wait").toList) then (payload.get (("wait").toList)).truthy
  else true

/-- `_normalize_spawn_swarm_payload` (dispatch_parser.py lines 113-139). -/
def normalize_spawn_swarm (payload : Json) : Option Json :=
  match swarmTasks payload with
  | none => none
  | some [] => none
  | some (t :: ts) =>
      some (Json.obj
        [(("tasks").toList, Json.arr (t :: ts)),
         (("strategy").toList,
           Json.str (coerce_strategy (payload.get (("strategy").toList)))),
         (("wait").toList, Json.bool (waitVal payload))])

/-- A `list[str]` pydantic field: every element must be a string. -/
def strList : List Json → Option (List (List Char))
  | [] => some []
  | Json.str s :: rest =>
      match strList rest with
      | some ss => some (s :: ss)
      | none => none
  | _ :: _ => none

/-- `CheckWorkersPayload.model_validate(payload).model_dump()` (models.py
lines 134-137): `worker_ids : list[str]` defaulting to `[]`, extra keys
forbidden. -/
def validate_check_workers (payload : Json) : Option Json :=
  match payload with
  | Json.obj fields =>
      if fields.all (fun p => decide (p.1 = ("worker_ids").toList)) then
        if hasKeyF fields (("worker_ids").toList) then
          match pyGetF fields (("worker_ids").toList) with
          | Json.arr items =>
              match strList items with
              | some ss =>
                  some (Json.obj [(("worker_ids").toList, Json.arr (ss.map Json.str))])
              | none => none
          | _ => none
        else some (Json.obj [(("worker_ids").toList, Json.arr [])])
      else none
  | _ => none

/-- `MergeResultsPayload.model_validate(payload).model_dump()` (models.py
lines 140-144): `worker_ids : list[str]` defaulting to `[]`,
`resolve_conflicts` a literal in {abort, ours, theirs} defaulting to
"abort", extra keys forbidden. -/
def validate_merge_results (payload : Json) : Option Json :=
  match payload with
  | Json.obj fields =>
      if fields.all (fun p => decide (p.1 = ("worker_ids").toList) ||
          decide (p.1 = ("resolve_conflicts").toList)) then
        let ids? : Option (List (List Char)) :=
          if hasKeyF fields (("worker_ids").toList) then
            match pyGetF fields (("worker_ids").toList) with
            | Json.arr items => strList items
            | _ => none
          else some []
        let rc? : Option (List Char) :=
          if hasKeyF fields (("resolve_conflicts").toList) then
            match pyGetF fields (("resolve_conflicts").toList) with
            | Json.str s =>
                if s = ("abort").toList ∨ s = ("ours").toList ∨ s = ("theirs").toList
                then some s else none
            | _ => none
          else some (("abort").toList)
        match ids?, rc? with
        | some ids, some rc =>
            some (Json.obj [(("worker_ids").toList, Json.arr (ids.map Json.str)),
              (("resolve_conflicts").toList, Json.str rc)])
        | _, _ => none
      else none
  | _ => none

/-- The four dispatch tool tags matched by `DISPATCH_BLOCK_RE`. -/
inductive Tool
  | spawn_agent | spawn_swarm | check_workers | merge_results
deriving DecidableEq

/-- `_validate_dispatch` (dispatch_parser.py lines 142-151). -/
def validateDispatch : Tool → Json → Option Json
  | .spawn_agent, p => normalize_spawn_agent p
  | .spawn_swarm, p => normalize_spawn_swarm p
  | .check_workers, p => validate_check_workers p
  | .merge_results, p => validate_merge_results p

/-- `DispatchRequest` (models.py lines 147-152). -/
structure DispatchReq where
  tool : Tool
  payload : Json
  request_id : Option (List Char)

/-- `validated_payload.get("request_id") or payload.get("request_id")`
followed by the `DispatchRequest` validation of the `request_id` field
(`str | None`): a non-string non-null value fails validation and the
enclosing block is skipped. -/
def extractRequestId (validated payload : Json) : Option (Option (List Char)) :=
  match pyOr (validated.get (("request_id").toList))
      (payload.get (("request_id").toList)) with
  | Json.null => some none
  | Json.str s => some (some s)
  | _ => none

/-- The body of the `parse_dispatch_blocks` loop (dispatch_parser.py lines
156-165) for one matched block: any exception (decode failure, non-object
body, schema validation, normalization, request validation) skips the
block. -/
def mkRequest (tool : Tool) (raw : List Char) : Option DispatchReq :=
  match parse_json_payload raw with
  | none => none
  | some payload =>
      match validateDispatch tool payload with
      | none => none
      | some validated =>
          match extractRequestId validated payload with
          | none => none
          | some rid => some { tool := tool, payload := validated, request_id := rid }

/- ===== dispatch_parser.py: fenced block extraction ===== -/

/-- The backtick character of the fence. -/
def backtick : Char := Char.ofNat 96

/-- The three-backtick fence of `DISPATCH_BLOCK_RE`. -/
def fence : List Char := [backtick, backtick, backtick]

/-- The textual tag of each dispatch tool. -/
def toolTag : Tool → List Char
  | .spawn_agent => ("spawn_agent").toList
  | .spawn_swarm => ("spawn_swarm").toList
  | .check_workers => ("check_workers").toList
  | .merge_results => ("merge_results").toList

/-- The tool-tag alternation of `DISPATCH_BLOCK_RE`, tried in regex order
directly after an opening fence. -/
def dropTag (s : List Char) : Option (Tool × List Char) :=
  if prefixTest (toolTag .spawn_agent) s then some (.spawn_agent, s.drop 11)
  else if prefixTest (toolTag .spawn_swarm) s then some (.spawn_swarm, s.drop 11)
  else if prefixTest (toolTag .check_workers) s then some (.check_workers, s.drop 13)
  else if prefixTest (toolTag .merge_results) s then some (.merge_results, s.drop 13)
  else none

/-- The `\s*\n` part of `DISPATCH_BLOCK_RE`: greedy whitespace run that must
end with a newline, with backtracking, so the match consumes through the
*last* newline of the maximal whitespace run. -/
def matchWsNl : List Char → Option (List Char)
  | [] => none
  | c :: rest =>
      if pyIsWs c then
        match matchWsNl rest with
        | some r => some r
        | none => if c = '\n' then some rest else none
      else none

/-- The non-greedy `(?P<body>.*?)` up to the next closing fence: split at the
first occurrence of three backticks. -/
def splitAtFence : List Char → Option (List Char × List Char)
  | [] => none
  | c :: rest =>
      if prefixTest fence (c :: rest) then some ([], rest.drop 2)
      else
        match splitAtFence rest with
        | some (b, r) => some (c :: b, r)
        | none => none

/-- `DISPATCH_BLOCK_RE.finditer`: scan left to right; at an opening fence try
tag, whitespace-newline and closing fence; on a match resume after the match,
otherwise advance one character (fuel-indexed so that concrete inputs
evaluate; fuel larger than the input length suffices since every step
consumes at least one character). -/
def scanBlocksF : Nat → List Char → List (Tool × List Char)
  | 0, _ => []
  | _ + 1, [] => []
  | fuel + 1, c :: rest =>
      if prefixTest fence (c :: rest) then
        match dropTag (rest.drop 2) with
        | some tr =>
            match matchWsNl tr.2 with
            | some afterNl =>
                match splitAtFence afterNl with
                | some br => (tr.1, br.1) :: scanBlocksF fuel br.2
                | none => scanBlocksF fuel rest
            | none => scanBlocksF fuel rest
        | none => scanBlocksF fuel rest
      else scanBlocksF fuel rest

/-- The block matches of `DISPATCH_BLOCK_RE.finditer` in textual order. -/
def scanBlocks (s : List Char) : List (Tool × List Char) :=
  scanBlocksF (s.length + 1) s

/-- `parse_dispatch_blocks` (dispatch_parser.py lines 154-166): every match
of the block regex in textual order, validated and skipped on failure. -/
def parse_dispatch_blocks (text : List Char) : List DispatchReq :=
  (scanBlocks text).filterMap (fun p => mkRequest p.1 p.2)

/- ===== scanner lemmas ===== -/

theorem dropTag_length {s : List Char} {tr : Tool × List Char}
    (h : dropTag s = some tr) : tr.2.length ≤ s.length := by
  unfold dropTag at h
  split_ifs at h <;> injection h with h1 <;> rw [← h1] <;>
    simp [List.length_drop]

theorem matchWsNl_length {s r : List Char} (h : matchWsNl s = some r) :
    r.length < s.length := by
  induction s generalizing r with
  | nil => simp [matchWsNl] at h
  | cons c rest ih =>
      simp only [matchWsNl] at h
      by_cases hws : pyIsWs c = true
      · rw [if_pos hws] at h
        rcases hrec : matchWsNl rest with _ | r'
        · rw [hrec] at h
          by_cases hc : c = '\n'
          · rw [if_pos hc] at h
            injection h with h1
            rw [← h1]
            simp
          · rw [if_neg hc] at h
            exact absurd h (by simp)
        · rw [hrec] at h
          injection h with h1
          have := ih hrec
          rw [← h1]
          simp
          omega
      · rw [if_neg hws] at h
        exact absurd h (by simp)

theorem splitAtFence_length {s : List Char} {br : List Char × List Char}
    (h : splitAtFence s = some br) : br.2.length < s.length := by
  induction s generalizing br with
  | nil => simp [splitAtFence] at h
  | cons c rest ih =>
      simp only [splitAtFence] at h
      by_cases hpf : prefixTest fence (c :: rest) = true
      · rw [if_pos hpf] at h
        injection h with h1
        rw [← h1]
        simp [List.length_drop]
        omega
      · rw [if_neg hpf] at h
        rcases hrec : splitAtFence rest with _ | br'
        · rw [hrec] at h
          exact absurd h (by simp)
        · rw [hrec] at h
          injection h with h1
          have := ih hrec
          rw [← h1]
          simp
          omega

theorem scanBlocksF_ext (fuel : Nat) : ∀ (fuel' : Nat) (s : List Char),
    s.length < fuel → s.length < fuel' →
    scanBlocksF fuel s = scanBlocksF fuel' s := by
  induction fuel with
  | zero =>
      intro fuel' s h _
      omega
  | succ fuel ih =>
      intro fuel' s h h'
      cases fuel' with
      | zero => omega
      | succ fuel'' =>
          cases s with
          | nil => rfl
          | cons c rest =>
              have hrest : rest.length < fuel := by
                simp at h
                omega
              have hrest' : rest.length < fuel'' := by
                simp at h'
                omega
              simp only [scanBlocksF]
              by_cases hpf : prefixTest fence (c :: rest) = true
              · rw [hpf]
                simp only [if_true]
                rcases h1 : dropTag (rest.drop 2) with _ | tr
                · simp only [ih fuel'' rest hrest hrest']
                · rcases h2 : matchWsNl tr.2 with _ | afterNl
                  · simp only [h2, ih fuel'' rest hrest hrest']
                  · rcases h3 : splitAtFence afterNl with _ | br
                    · simp only [h2, h3, ih fuel'' rest hrest hrest']
                    · have l1 : tr.2.length ≤ (rest.drop 2).length := dropTag_length h1
                      have l2 : afterNl.length < tr.2.length := matchWsNl_length h2
                      have l3 : br.2.length < afterNl.length := splitAtFence_length h3
                      have l4 : (rest.drop 2).length ≤ rest.length := by
                        simp [List.length_drop]
                      have hbr : br.2.length < fuel := by omega
                      have hbr' : br.2.length < fuel'' := by omega
                      simp only [h2, h3, ih fuel'' br.2 hbr hbr']
              · rw [Bool.not_eq_true] at hpf
                rw [hpf]
                simp only [Bool.false_eq_true, if_false]
                exact ih fuel'' rest hrest hrest'

theorem scanBlocks_cons_eq (c : Char) (rest : List Char) :
    scanBlocks (c :: rest) =
      if prefixTest fence (c :: rest) then
        match dropTag (rest.drop 2) with
        | some tr =>
            match matchWsNl tr.2 with
            | some afterNl =>
                match splitAtFence afterNl with
                | some br => (tr.1, br.1) :: scanBlocks br.2
                | none => scanBlocks rest
            | none => scanBlocks rest
        | none => scanBlocks rest
      else scanBlocks rest := by
  show scanBlocksF ((c :: rest).length + 1) (c :: rest) = _
  rw [show (c :: rest).length + 1 = (rest.length + 1) + 1 from by simp]
  simp only [scanBlocksF]
  by_cases hpf : prefixTest fence (c :: rest) = true
  · rw [hpf]
    simp only [if_true]
    rcases h1 : dropTag (rest.drop 2) with _ | tr
    · simp only [scanBlocks]
    · rcases h2 : matchWsNl tr.2 with _ | afterNl
      · simp only [h2, scanBlocks]
      · rcases h3 : splitAtFence afterNl with _ | br
        · simp only [h2, h3, scanBlocks]
        · have l1 : tr.2.length ≤ (rest.drop 2).length := dropTag_length h1
          have l2 : afterNl.length < tr.2.length := matchWsNl_length h2
          have l3 : br.2.length < afterNl.length := splitAtFence_length h3
          have l4 : (rest.drop 2).length ≤ rest.length := by
            simp [List.length_drop]
          have hext : scanBlocksF (rest.length + 1) br.2 = scanBlocksF (br.2.length + 1) br.2 :=
            scanBlocksF_ext (rest.length + 1) (br.2.length + 1) br.2 (by omega) (by omega)
          simp only [h2, h3, scanBlocks, hext]
  · rw [Bool.not_eq_true] at hpf
    rw [hpf]
    simp only [Bool.false_eq_true, if_false]
    simp only [scanBlocks]

theorem prefixTest_fence_false {c : Char} (t : List Char) (hc : c ≠ backtick) :
    prefixTest fence (c :: t) = false := by
  have hd : decide (backtick = c) = false := decide_eq_false (fun hh => hc hh.symm)
  simp [fence, prefixTest, hd]

theorem scanBlocks_noise (noise s : List Char) (h : backtick ∉ noise) :
    scanBlocks (noise ++ s) = scanBlocks s := by
  induction noise with
  | nil => simp
  | cons c rest ih =>
      have hc : c ≠ backtick := fun hh => h (by rw [hh]; exact List.mem_cons_self _ _)
      have hrest : backtick ∉ rest := fun hm => h (List.mem_cons_of_mem _ hm)
      rw [List.cons_append, scanBlocks_cons_eq,
        prefixTest_fence_false (rest ++ s) hc]
      simp only [Bool.false_eq_true, if_false]
      exact ih hrest

theorem dropTag_toolTag (tool : Tool) (X : List Char) :
    dropTag (toolTag tool ++ X) = some (tool, X) := by
  cases tool <;> rfl

theorem matchWsNl_none {t : List Char} (h : '\n' ∉ t.takeWhile pyIsWs) :
    matchWsNl t = none := by
  induction t with
  | nil => rfl
  | cons c rest ih =>
      by_cases hws : pyIsWs c = true
      · have htw : (c :: rest).takeWhile pyIsWs = c :: rest.takeWhile pyIsWs := by
          simp [List.takeWhile_cons, hws]
        rw [htw] at h
        have hc : c ≠ '\n' := fun hh => h (by rw [hh]; exact List.mem_cons_self _ _)
        have hrest : '\n' ∉ rest.takeWhile pyIsWs :=
          fun hm => h (List.mem_cons_of_mem _ hm)
        simp [matchWsNl, hws, ih hrest, hc]
      · simp [matchWsNl, hws]

theorem pyIsWs_backtick : pyIsWs backtick = false := rfl

theorem takeWhile_append_nonws {body X : List Char}
    (hn : '\n' ∉ body.takeWhile pyIsWs) (hx : X.takeWhile pyIsWs = []) :
    '\n' ∉ (body ++ X).takeWhile pyIsWs := by
  induction body with
  | nil => simp [hx]
  | cons b rest ih =>
      by_cases hws : pyIsWs b = true
      · have h1 : (b :: rest).takeWhile pyIsWs = b :: rest.takeWhile pyIsWs := by
          simp [List.takeWhile_cons, hws]
        have h2 : ((b :: rest) ++ X).takeWhile pyIsWs =
            b :: (rest ++ X).takeWhile pyIsWs := by
          simp [List.takeWhile_cons, hws]
        rw [h1] at hn
        rw [List.cons_append] at h2 ⊢
        rw [h2]
        intro hmem
        rcases List.mem_cons.mp hmem with hh | hh
        · exact hn (by rw [hh]; exact List.mem_cons_self _ _)
        · exact ih (fun hm => hn (List.mem_cons_of_mem _ hm)) hh
      · have h1 : List.takeWhile pyIsWs (b :: (rest ++ X)) = [] := by
          simp [List.takeWhile_cons, hws]
        rw [List.cons_append, h1]
        simp

theorem matchWsNl_block (body rest' : List Char)
    (h : '\n' ∉ body.takeWhile pyIsWs) :
    matchWsNl ('\n' :: (body ++ (fence ++ rest'))) =
      some (body ++ (fence ++ rest')) := by
  have hfence : (fence ++ rest').takeWhile pyIsWs = [] := by
    simp [fence, List.takeWhile_cons, pyIsWs_backtick]
  have hnone : matchWsNl (body ++ (fence ++ rest')) = none :=
    matchWsNl_none (takeWhile_append_nonws h hfence)
  simp [matchWsNl, hnone]
  rfl

theorem splitAtFence_body (body s : List Char) (h : backtick ∉ body) :
    splitAtFence (body ++ (fence ++ s)) = some (body, s) := by
  induction body with
  | nil => rfl
  | cons c rest ih =>
      have hc : c ≠ backtick := fun hh => h (by rw [hh]; exact List.mem_cons_self _ _)
      have hrest : backtick ∉ rest := fun hm => h (List.mem_cons_of_mem _ hm)
      rw [List.cons_append]
      simp only [splitAtFence, prefixTest_fence_false _ hc, Bool.false_eq_true,
        if_false, ih hrest]

/-- A well-formed fenced dispatch block, rendered: three backticks, the tool
tag, a newline, the body, three backticks. -/
def renderBlock (tool : Tool) (body : List Char) : List Char :=
  fence ++ toolTag tool ++ ('\n' :: body) ++ fence

theorem scanBlocks_block (tool : Tool) (body s : List Char)
    (hb : backtick ∉ body) (hnl : '\n' ∉ body.takeWhile pyIsWs) :
    scanBlocks (renderBlock tool body ++ s) = (tool, body) :: scanBlocks s := by
  have hshape : renderBlock tool body ++ s =
      backtick :: backtick :: backtick ::
        (toolTag tool ++ ('\n' :: (body ++ (fence ++ s)))) := by
    simp [renderBlock, fence]
  rw [hshape, scanBlocks_cons_eq]
  have hpf : prefixTest fence (backtick :: backtick :: backtick ::
      (toolTag tool ++ ('\n' :: (body ++ (fence ++ s))))) = true := by
    simp [prefixTest, fence]
  rw [hpf]
  simp only [if_true, List.drop_succ_cons, List.drop_zero, dropTag_toolTag,
    matchWsNl_block body s hnl, splitAtFence_body body s hb]

/-- Interleaving of non-block noise and well-formed blocks, rendered into
one input text. -/
def renderSegs : List (List Char × Tool × List Char) → List Char → List Char
  | [], trailing => trailing
  | (noise, tool, body) :: rest, trailing =>
      noise ++ (renderBlock tool body ++ renderSegs rest trailing)

/-- Well-formedness of an interleaving: noise carries no backtick (it is
non-block text), and each block body carries no backtick (its closing fence
is the one that ends it) and opens with no whitespace-run newline (the tag
line's newline is the one that ends it). -/
def SegsOk (segs : List (List Char × Tool × List Char)) (trailing : List Char) :
    Prop :=
  (∀ seg ∈ segs, backtick ∉ seg.1 ∧ backtick ∉ seg.2.2 ∧
    '\n' ∉ (seg.2.2).takeWhile pyIsWs) ∧ backtick ∉ trailing

instance (segs : List (List Char × Tool × List Char)) (trailing : List Char) :
    Decidable (SegsOk segs trailing) := by
  unfold SegsOk
  infer_instance

theorem scanBlocks_render (segs : List (List Char × Tool × List Char))
    (trailing : List Char) (h : SegsOk segs trailing) :
    scanBlocks (renderSegs segs trailing) =
      segs.map (fun seg => (seg.2.1, seg.2.2)) := by
  induction segs with
  | nil =>
      have h0 := scanBlocks_noise trailing [] h.2
      simpa using h0
  | cons seg rest ih =>
      obtain ⟨noise, tool, body⟩ := seg
      have hseg := h.1 _ (List.mem_cons_self _ _)
      have hrest : SegsOk rest trailing :=
        ⟨fun sg hs => h.1 _ (List.mem_cons_of_mem _ hs), h.2⟩
      show scanBlocks (noise ++ (renderBlock tool body ++ renderSegs rest trailing)) = _
      rw [scanBlocks_noise _ _ hseg.1,
        scanBlocks_block tool body _ hseg.2.1 hseg.2.2, ih hrest]
      rfl

theorem length_filterMap_eq_countP {α β : Type} (f : α → Option β) (l : List α) :
    (l.filterMap f).length = l.countP (fun x => (f x).isSome) := by
  induction l with
  | nil => rfl
  | cons a l ih =>
      rw [List.filterMap_cons]
      rcases h : f a with _ | b
      · simp [List.countP_cons, h, ih]
      · simp [List.countP_cons, h, ih]

/-- C3: on any input text that interleaves well-formed fenced dispatch
blocks with non-block noise, `parse_dispatch_blocks` returns exactly the
requests of the blocks that decode, validate and normalize, in textual
order; each failing block is skipped (never raising) and reduces the count
by exactly one, leaving the order of the valid ones unchanged. -/
theorem C3_parse_order (segs : List (List Char × Tool × List Char))
    (trailing : List Char) (h : SegsOk segs trailing) :
    parse_dispatch_blocks (renderSegs segs trailing) =
      (segs.map (fun seg => (seg.2.1, seg.2.2))).filterMap
        (fun p => mkRequest p.1 p.2)
    ∧ (parse_dispatch_blocks (renderSegs segs trailing)).length =
        (segs.map (fun seg => (seg.2.1, seg.2.2))).countP
          (fun p => (mkRequest p.1 p.2).isSome) := by
  have hscan := scanBlocks_render segs trailing h
  constructor
  · simp [parse_dispatch_blocks, hscan]
  · simp only [parse_dispatch_blocks, hscan]
    exact length_filterMap_eq_countP _ _

/-- Witness for C3: noise, one valid check_workers block, noise, one invalid
block (non-object body), trailing noise. -/
theorem C3_parse_order_witness :
    SegsOk [(("intro ").toList, Tool.check_workers, ("\x7b\x7d").toList),
      ((" mid ").toList, Tool.check_workers, ("5").toList)] ((" end").toList)
    ∧ (parse_dispatch_blocks (renderSegs
          [(("intro ").toList, Tool.check_workers, ("\x7b\x7d").toList),
            ((" mid ").toList, Tool.check_workers, ("5").toList)] ((" end").toList)) =
        ([(("intro ").toList, Tool.check_workers, ("\x7b\x7d").toList),
            ((" mid ").toList, Tool.check_workers, ("5").toList)].map
          (fun seg => (seg.2.1, seg.2.2))).filterMap (fun p => mkRequest p.1 p.2)
      ∧ (parse_dispatch_blocks (renderSegs
            [(("intro ").toList, Tool.check_workers, ("\x7b\x7d").toList),
              ((" mid ").toList, Tool.check_workers, ("5").toList)] ((" end").toList))).length =
          ([(("intro ").toList, Tool.check_workers, ("\x7b\x7d").toList),
              ((" mid ").toList, Tool.check_workers, ("5").toList)].map
            (fun seg => (seg.2.1, seg.2.2))).countP
            (fun p => (mkRequest p.1 p.2).isSome)) :=
  ⟨by decide, C3_parse_order _ _ (by decide)⟩

/- ===== C9: request id correlation ===== -/

theorem normalize_spawn_agent_no_rid {payload v : Json}
    (h : normalize_spawn_agent payload = some v) :
    v.get (("request_id").toList) = Json.null := by
  unfold normalize_spawn_agent at h
  split at h
  · split_ifs at h
    injection h with h1
    rw [← h1]
    rfl
  · exact absurd h (by simp)

theorem normalize_spawn_swarm_no_rid {payload v : Json}
    (h : normalize_spawn_swarm payload = some v) :
    v.get (("request_id").toList) = Json.null := by
  unfold normalize_spawn_swarm at h
  split at h
  · exact absurd h (by simp)
  · exact absurd h (by simp)
  · injection h with h1
    rw [← h1]
    rfl

theorem validate_check_workers_rid {payload : Json}
    (h : payload.hasKey (("request_id").toList) = true) :
    validate_check_workers payload = none := by
  cases payload with
  | obj fields =>
      simp only [Json.hasKey, hasKeyF, List.any_eq_true] at h
      obtain ⟨p, hp, hpk⟩ := h
      have hall : fields.all (fun q => decide (q.1 = ("worker_ids").toList)) = false := by
        rcases hcon : fields.all (fun q => decide (q.1 = ("worker_ids").toList)) with _ | _
        · rfl
        · exfalso
          have := (List.all_eq_true.mp hcon) p hp
          rw [of_decide_eq_true hpk] at this
          exact absurd (of_decide_eq_true this) (by decide)
      simp only [validate_check_workers, hall]
      simp
  | null => simp [Json.hasKey] at h
  | bool b => simp [Json.hasKey] at h
  | num q => simp [Json.hasKey] at h
  | str s => simp [Json.hasKey] at h
  | arr l => simp [Json.hasKey] at h

theorem validate_merge_results_rid {payload : Json}
    (h : payload.hasKey (("request_id").toList) = true) :
    validate_merge_results payload = none := by
  cases payload with
  | obj fields =>
      simp only [Json.hasKey, hasKeyF, List.any_eq_true] at h
      obtain ⟨p, hp, hpk⟩ := h
      have hall : fields.all (fun q => decide (q.1 = ("worker_ids").toList) ||
          decide (q.1 = ("resolve_conflicts").toList)) = false := by
        rcases hcon : fields.all (fun q => decide (q.1 = ("worker_ids").toList) ||
            decide (q.1 = ("resolve_conflicts").toList)) with _ | _
        · rfl
        · exfalso
          have := (List.all_eq_true.mp hcon) p hp
          rw [of_decide_eq_true hpk] at this
          rcases Bool.or_eq_true_iff.mp this with hh | hh
          · exact absurd (of_decide_eq_true hh) (by decide)
          · exact absurd (of_decide_eq_true hh) (by decide)
      simp only [validate_merge_results, hall]
      simp
  | null => simp [Json.hasKey] at h
  | bool b => simp [Json.hasKey] at h
  | num q => simp [Json.hasKey] at h
  | str s => simp [Json.hasKey] at h
  | arr l => simp [Json.hasKey] at h

/-- The marker selection of `Orchestrator.write_response` (orchestrator.py
line 392): the request id when it is a non-empty string, else the freshly
generated identifier. -/
def responseMarker (request_id : Option (List Char)) (fresh : List Char) :
    List Char :=
  match request_id with
  | some r => if r ≠ [] then r else fresh
  | none => fresh

/-- The response block appended by `write_response` (orchestrator.py lines
393-397). -/
def responseBlock (marker text : List Char) : List Char :=
  ('\n' :: ((("<!-- codex-swarm-response:").toList) ++ marker ++
      ((":start -->\n").toList))) ++
    pyStrip text ++
    ('\n' :: ((("<!-- codex-swarm-response:").toList) ++ marker ++
      ((":end -->\n").toList)))

/-- C9 as literally stated is false: a well-formed check_workers block whose
body carries a request_id field is skipped entirely (its schema forbids
extra keys), so no DispatchRequest carrying that id is produced. -/
theorem C9_counterexample :
    parse_dispatch_blocks
      (renderBlock Tool.check_workers
        (("\x7b\"request_id\": \"abc\"\x7d").toList)) = [] := by
  rfl

/-- C9 (amended): for spawn_agent and spawn_swarm blocks, a string
request_id in the JSON body is carried on the DispatchRequest and echoed as
the response marker (a fresh identifier is used only when request_id is
absent or empty); for check_workers and merge_results, a request_id field in
the body fails schema validation (extra keys are forbidden), so the block is
skipped and no request is produced. -/
theorem C9_request_id (tool : Tool) (raw : List Char) (payload v : Json)
    (r fresh : List Char)
    (htool : tool = Tool.spawn_agent ∨ tool = Tool.spawn_swarm)
    (hp : parse_json_payload raw = some payload)
    (hv : validateDispatch tool payload = some v)
    (hr : payload.get (("request_id").toList) = Json.str r)
    (hne : r ≠ []) :
    mkRequest tool raw = some { tool := tool, payload := v, request_id := some r }
    ∧ responseMarker (some r) fresh = r
    ∧ (∀ p : Json, p.hasKey (("request_id").toList) = true →
        validate_check_workers p = none ∧ validate_merge_results p = none) := by
  have hnorid : v.get (("request_id").toList) = Json.null := by
    rcases htool with ht | ht
    · rw [ht] at hv
      exact normalize_spawn_agent_no_rid hv
    · rw [ht] at hv
      exact normalize_spawn_swarm_no_rid hv
  have hex : extractRequestId v payload = some (some r) := by
    unfold extractRequestId
    rw [hnorid, hr]
    rfl
  refine ⟨?_, ?_, ?_⟩
  · unfold mkRequest
    simp only [hp, hv, hex]
  · simp [responseMarker, hne]
  · intro p hpk
    exact ⟨validate_check_workers_rid hpk, validate_merge_results_rid hpk⟩

/-- Witness for C9 at a concrete spawn_agent block carrying request_id
"abc". -/
theorem C9_request_id_witness :
    (Tool.spawn_agent = Tool.spawn_agent ∨ Tool.spawn_agent = Tool.spawn_swarm)
    ∧ parse_json_payload (("\x7b\"task\": \"do it\", \"request_id\": \"abc\"\x7d").toList) =
        some (Json.obj [(("task").toList, Json.str (("do it").toList)),
          (("request_id").toList, Json.str (("abc").toList))])
    ∧ validateDispatch Tool.spawn_agent
        (Json.obj [(("task").toList, Json.str (("do it").toList)),
          (("request_id").toList, Json.str (("abc").toList))]) =
        some (Json.obj
          [(("task").toList, Json.str (("do it").toList)),
           (("scope").toList, Json.arr []),
           (("context").toList, Json.str []),
           (("priority").toList, Json.str (("normal").toList)),
           (("return_format").toList, Json.str (("summary").toList))])
    ∧ (Json.obj [(("task").toList, Json.str (("do it").toList)),
        (("request_id").toList, Json.str (("abc").toList))]).get
        (("request_id").toList) = Json.str (("abc").toList)
    ∧ (("abc").toList ≠ [])
    ∧ (mkRequest Tool.spawn_agent
          (("\x7b\"task\": \"do it\", \"request_id\": \"abc\"\x7d").toList) =
        some { tool := Tool.spawn_agent,
               payload := Json.obj
                [(("task").toList, Json.str (("do it").toList)),
                 (("scope").toList, Json.arr []),
                 (("context").toList, Json.str []),
                 (("priority").toList, Json.str (("normal").toList)),
                 (("return_format").toList, Json.str (("summary").toList))],
               request_id := some (("abc").toList) }
      ∧ responseMarker (some (("abc").toList)) (("fresh-id").toList) = ("abc").toList
      ∧ (∀ p : Json, p.hasKey (("request_id").toList) = true →
          validate_check_workers p = none ∧ validate_merge_results p = none)) :=
  ⟨Or.inl rfl, rfl, rfl, rfl, by decide,
    C9_request_id Tool.spawn_agent _ _ _ _ _ (Or.inl rfl) rfl rfl rfl (by decide)⟩
